import Mathlib

/-!
Verification of the `arbiterid` ID generator (githonllc/arbiter-id).

This file gives a shallow embedding, in Lean, of the core of
`arbiterid.go`: the bit-layout constants, the packing/unpacking of the
four ID fields, the stateful generator (`Generate`,
`GenerateWithTimestamp`, `generateInternal`), and the five text codecs
(decimal, binary, base32, base58, URL-safe base64) with their parsers.

Conventions used throughout:
* Go `int64` values are modelled as `Int`; wherever Go arithmetic can
  wrap or reinterprets bits, the two's-complement view is made explicit
  through `toUInt64` (the `Nat` holding the 64 bits of the value) and
  `ofUInt64` (the signed reinterpretation).
* Go `uint64` arithmetic is modelled as `Nat` with explicit `% 2^64`
  where a Go operation could wrap.
* Go strings are modelled as `List Char`; all relevant alphabets are
  ASCII, so the byte-level loops of the Go parsers coincide with
  character-level loops (a non-ASCII input character is not in any
  alphabet and produces the same decode error either way).
* Mutex locking, logging (`log.Printf`), the `quietMode` flag and the
  `clockWarningCount` counter have no observable effect on results or
  on the state fields the spec talks about, and are omitted.
-/

namespace ArbiterId

/-! ## Bit allocation constants (arbiterid.go lines 16-51) -/

def Epoch : Int := 1735718400000

def TypeBits : Nat := 10
def TimestampBits : Nat := 41
def NodeBits : Nat := 2
def SeqBits : Nat := 10

/-- `TypeMax uint16 = (1 << TypeBits) - 1` -/
def TypeMaxN : Nat := (1 <<< TypeBits) - 1
/-- `TimestampMax int64 = (1 << TimestampBits) - 1` -/
def TimestampMaxN : Nat := (1 <<< TimestampBits) - 1
/-- `NodeMax int64 = (1 << NodeBits) - 1` -/
def NodeMaxN : Nat := (1 <<< NodeBits) - 1
/-- `SeqMax int64 = (1 << SeqBits) - 1` -/
def SeqMaxN : Nat := (1 <<< SeqBits) - 1

def TypeMax : Int := (TypeMaxN : Int)
def TimestampMax : Int := (TimestampMaxN : Int)
def NodeMax : Int := (NodeMaxN : Int)
def SeqMax : Int := (SeqMaxN : Int)

def SeqShift : Nat := 0
def NodeShift : Nat := SeqBits
def TimeShift : Nat := NodeShift + NodeBits
def TypeShift : Nat := TimeShift + TimestampBits

def SeqMask : Nat := SeqMaxN <<< SeqShift
def NodeMask : Nat := NodeMaxN <<< NodeShift
def TimestampMask : Nat := TimestampMaxN <<< TimeShift
def TypeMask : Nat := TypeMaxN <<< TypeShift

def maxRolloverWaitAttempts : Nat := 2000

/-! ## Two's-complement view of `int64` values -/

/-- The 64 bits of an `int64`, read as a `Nat` (the `uint64` view). -/
def toUInt64 (v : Int) : Nat := (v % (2 : Int) ^ 64).toNat

/-- Reinterpret 64 bits as a signed `int64` value. -/
def ofUInt64 (u : Nat) : Int :=
if u < 2 ^ 63 then (u : Int) else (u : Int) - 2 ^ 64

/-! ## Packing and field extraction (arbiterid.go lines 262-267, 312-347) -/

/-- The ID-assembling expression of `generateInternal`:
`(int64(idType) << TypeShift) | (now << TimeShift) | (n.node << NodeShift) | n.seq`,
with each Go `int64` shift performed modulo `2^64` on the bit pattern. -/
def packID (idType now node seq : Int) : Int :=
ofUInt64 ((toUInt64 idType <<< TypeShift) % 2 ^ 64 |||
  (toUInt64 now <<< TimeShift) % 2 ^ 64 |||
  (toUInt64 node <<< NodeShift) % 2 ^ 64 |||
  toUInt64 seq)

/-- `func (id ID) Type() int64 { return (int64(id) & TypeMask) >> TypeShift }`.
`TypeMask` clears the sign bit, so the arithmetic right shift of the
nonnegative masked value equals the logical shift on the bit pattern. -/
def idTypeOf (id : Int) : Int := ((toUInt64 id &&& TypeMask) >>> TypeShift : Nat)

/-- The timestamp offset `(int64(id) & TimestampMask) >> TimeShift`
extracted by `Components` and `Time`. -/
def idTimeOffset (id : Int) : Int := ((toUInt64 id &&& TimestampMask) >>> TimeShift : Nat)

/-- `func (id ID) Time() int64`: offset plus `Epoch`. -/
def idTime (id : Int) : Int := idTimeOffset id + Epoch

/-- `func (id ID) Node() int64 { return (int64(id) & NodeMask) >> NodeShift }` -/
def idNode (id : Int) : Int := ((toUInt64 id &&& NodeMask) >>> NodeShift : Nat)

/-- `func (id ID) Seq() int64 { return int64(id) & SeqMask }` -/
def idSeq (id : Int) : Int := ((toUInt64 id &&& SeqMask) : Nat)

/-- `func (id ID) Components()`: type, Unix-ms timestamp, node, sequence. -/
def components (id : Int) : Int × Int × Int × Int :=
(idTypeOf id, idTime id, idNode id, idSeq id)

/-! ## The generator (arbiterid.go lines 97-298) -/

/-- The error values a generator operation can produce.
`sequenceExhausted` is the `GenerateWithTimestamp` failure (in Go it
wraps `ErrClockNotAdvancing` with a "sequence exhausted" message,
distinct from the `Generate` rollover-stall failure `clockStalled`). -/
inductive GenError where
| invalidNode
| invalidType
| clockStalled
| timestampOverflow
| monotonicityViolation
| sequenceExhausted
deriving DecidableEq, Repr

/-- The mutable state of a `Node`.  The mutex, the stored `epoch`
(always the fixed `Epoch` constant), `clockWarningCount` and
`quietMode` (logging only) are omitted. -/
structure Node where
lastID : Int
node : Int
time : Int
seq : Int
strict : Bool
deriving DecidableEq, Repr

/-- `WithStrictMonotonicityCheck` functional option. -/
def withStrictMonotonicityCheck (enable : Bool) (n : Node) : Node :=
{ n with strict := enable }

/-- `NewNode`: validates `nodeID` against `NodeMax`, builds the zeroed
state with `strictMonotonicityChecks` defaulting to true, then applies
the options. -/
def newNode (nodeID : Int) (options : List (Node → Node)) : Except GenError Node :=
if nodeID < 0 ∨ NodeMax < nodeID then .error .invalidNode
else .ok (options.foldl (fun n o => o n) ⟨0, nodeID, 0, 0, true⟩)

/-- `generateInternal`: records `now` into `n.time`, checks the
timestamp ceiling, packs the ID, runs the strict-monotonicity check,
and only then commits `lastID`.  Returns the final state together with
the result, mirroring the in-place mutation of the Go pointer. -/
def generateInternal (idType now : Int) (n : Node) : Node × Except GenError Int :=
let n1 : Node := { n with time := now }
if TimestampMax < now then (n1, .error .timestampOverflow)
else
  let id := packID idType now n1.node n1.seq
  if n1.strict = true ∧ id ≤ n1.lastID then (n1, .error .monotonicityViolation)
  else ({ n1 with lastID := id }, .ok id)

/-- The rollover wait loop of `Generate`: repeatedly re-sample the
clock (the oracle `sample`, indexed by attempt) until a reading exceeds
`originalTime`; after `maxRolloverWaitAttempts` samples without
advancement the loop fails with `clockStalled`. -/
def rolloverWaitAux (originalTime : Int) (sample : Nat → Int) : Nat → Nat → Except GenError Int
| 0, _ => .error .clockStalled
| fuel + 1, i =>
  if originalTime < sample i then .ok (sample i)
  else rolloverWaitAux originalTime sample fuel (i + 1)

def rolloverWait (originalTime : Int) (sample : Nat → Int) : Except GenError Int :=
rolloverWaitAux originalTime sample maxRolloverWaitAttempts 0

/-- `Generate`: the production path.  The wall clock is modelled as an
oracle: `nowSample` is the reading taken at entry and `sample` yields
the readings taken inside the rollover wait loop.  The sequence update
`(n.seq + 1) & SeqMax` is written `% 1024`: for every `int64` value the
two's-complement AND with `SeqMax = 1023` equals the Euclidean
remainder modulo `1024`. -/
def generate (idType : Int) (nowSample : Int) (sample : Nat → Int) (n : Node) :
    Node × Except GenError Int :=
if TypeMax < idType then (n, .error .invalidType)
else
  let now := if nowSample < n.time then n.time else nowSample
  if now = n.time then
    let s1 := (n.seq + 1) % 1024
    let n1 : Node := { n with seq := s1 }
    if s1 = 0 then
      match rolloverWait n.time sample with
      | .error e => (n1, .error e)
      | .ok fresh => generateInternal idType fresh n1
    else generateInternal idType now n1
  else generateInternal idType now ({ n with seq := 0 })

/-- `GenerateWithTimestamp`: `now` is the supplied timestamp expressed
as milliseconds since `Epoch` (in Go, `timestamp.UTC().Sub(n.epoch).Milliseconds()`).
No clock handling: same-millisecond wraparound fails immediately. -/
def generateWithTimestamp (idType now : Int) (n : Node) : Node × Except GenError Int :=
if TypeMax < idType then (n, .error .invalidType)
else
  if now = n.time then
    let s1 := (n.seq + 1) % 1024
    let n1 : Node := { n with seq := s1 }
    if s1 = 0 then (n1, .error .sequenceExhausted)
    else generateInternal idType now n1
  else generateInternal idType now ({ n with seq := 0 })

/-- `LastID`: snapshot of the last generated identifier. -/
def lastIDOf (n : Node) : Int := n.lastID

/-! ## Digit machinery shared by the text codecs

The Go encoders fill a buffer from its end with `n % base` digits while
dividing `n` by the base, then slice off the unused front.  That is the
most-significant-digit-first list `digitsMSB`.  The parsers accumulate
`val = val*base + digit` left to right, which is `hornerFold`. -/

/-- Least-significant-first digits of `n` in base `b`; `fuel ≥ n`
bounds the recursion (one digit is produced per division as in the Go
encoder loops `for n > 0 { buf[i] = map[n % base]; n /= base }`). -/
def revDigitsAux (b : Nat) : Nat → Nat → List Nat
| 0, _ => []
| fuel + 1, n => if n = 0 then [] else n % b :: revDigitsAux b fuel (n / b)

/-- Most-significant-first digit list of `n` in base `b` (empty for 0). -/
def digitsMSB (b n : Nat) : List Nat := (revDigitsAux b n n).reverse

/-- Left-to-right digit accumulation `val = val*b + d`. -/
def hornerFold (b : Nat) : Nat → List Nat → Nat
| val, [] => val
| val, d :: ds => hornerFold b (val * b + d) ds

/-- Fixed-width big-endian digit expansion: exactly `k` base-`b` digits
of `n` (used for the 8-byte/11-character base64 form). -/
def digitsFixed (b : Nat) : Nat → Nat → List Nat
| 0, _ => []
| k + 1, n => n / b ^ k :: digitsFixed b k (n % b ^ k)

/-! ## Codec errors and alphabets (arbiterid.go lines 53-89, 301-478) -/

inductive CodecErr where
| emptyInput
| tooLong
| invalidChar
| overflowU64
| overflowI64
| badDigits
| outOfRange
| corruptB64
| badLengthB64
deriving DecidableEq, Repr

def encodeBase32Map : List Char := "ybndrfg8ejkmcpqxot1uwisza345h769".toList
def encodeBase58Map : List Char := "123456789abcdefghijkmnopqrstuvwxyzABCDEFGHJKLMNPQRSTUVWXYZ".toList
def encodeBase64Map : List Char :=
"ABCDEFGHIJKLMNOPQRSTUVWXYZabcdefghijklmnopqrstuvwxyz0123456789-_".toList

/-- Position of `c` in an alphabet, starting at index `i`. -/
def charIndexAux (c : Char) : List Char → Nat → Option Nat
| [], _ => none
| d :: ds, i => if d = c then some i else charIndexAux c ds (i + 1)

/-- The byte-indexed decode table built in `init()`: maps an alphabet
character to its index, anything else (`0xFF` in Go) to `none`.  The
alphabets are duplicate-free, so first match equals the table. -/
def decodeBase32Map (c : Char) : Option Nat := charIndexAux c encodeBase32Map 0
def decodeBase58Map (c : Char) : Option Nat := charIndexAux c encodeBase58Map 0
def decodeBase64Map (c : Char) : Option Nat := charIndexAux c encodeBase64Map 0

/-! ## Decimal and binary (strconv-based) codecs -/

/-- Go `strconv` digit value of a character: `0-9`, then letters
(case-insensitively) as 10-35; anything else is invalid. -/
def goDigitVal (c : Char) : Option Nat :=
if '0' ≤ c ∧ c ≤ '9' then some (c.toNat - 48)
else if 'a' ≤ c ∧ c ≤ 'z' then some (c.toNat - 97 + 10)
else if 'A' ≤ c ∧ c ≤ 'Z' then some (c.toNat - 65 + 10)
else none

/-- The digit loop of `strconv.ParseUint`: every character must be a
digit with value below `base`; the value is accumulated exactly (the
Go cutoff checks only turn too-large values into range errors, which
`parseIntGo` reproduces below from the exact value). -/
def parseDigitsAux (base : Nat) : Nat → List Char → Option Nat
| acc, [] => some acc
| acc, c :: cs =>
  match goDigitVal c with
  | none => none
  | some d => if base ≤ d then none else parseDigitsAux base (acc * base + d) cs

/-- Observable behaviour of `strconv.ParseInt(s, base, 64)` for a
fixed base (2 or 10): optional single leading sign, at least one
digit, all digits valid for the base, and the signed value must fit in
`int64` (`m ≥ 2^63` positive or `m > 2^63` negative is a range error;
this also covers the `ParseUint` overflow error for even larger
values). -/
def parseIntGo (base : Nat) (s : List Char) : Except CodecErr Int :=
match s with
| [] => .error .badDigits
| c0 :: rest =>
  let neg : Bool := c0 == '-'
  let digits := if c0 = '-' ∨ c0 = '+' then rest else s
  match digits with
  | [] => .error .badDigits
  | _ =>
    match parseDigitsAux base 0 digits with
    | none => .error .badDigits
    | some m =>
      if neg = false ∧ 2 ^ 63 ≤ m then .error .outOfRange
      else if neg = true ∧ 2 ^ 63 < m then .error .outOfRange
      else .ok (if neg then -(m : Int) else (m : Int))

/-- The character for digit value `d` in Go's `strconv` digit string. -/
def decDigitChar (d : Nat) : Char := "0123456789abcdefghijklmnopqrstuvwxyz".toList.getD d '0'

/-- `strconv.FormatInt(v, b)` digit expansion for base `b`. -/
def formatIntGo (b : Nat) (v : Int) : List Char :=
if v < 0 then '-' :: (if v.natAbs = 0 then ['0'] else (digitsMSB b v.natAbs).map decDigitChar)
else if v.natAbs = 0 then ['0'] else (digitsMSB b v.natAbs).map decDigitChar

/-- `func (id ID) String() string`: decimal representation. -/
def idString (id : Int) : List Char := formatIntGo 10 id

/-- `ParseString`: `strconv.ParseInt(s, 10, 64)`. -/
def parseString (s : List Char) : Except CodecErr Int := parseIntGo 10 s

/-- `func (id ID) Base2() string`: `fmt.Sprintf("%063b", int64(id))` —
the binary digits zero-padded on the left to a total width of 63
characters (for a negative value the sign is part of the width). -/
def idBase2 (id : Int) : List Char :=
if id < 0 then
  let ds := if id.natAbs = 0 then ['0'] else (digitsMSB 2 id.natAbs).map decDigitChar
  '-' :: (List.replicate (62 - ds.length) '0' ++ ds)
else
  let ds := if id.natAbs = 0 then ['0'] else (digitsMSB 2 id.natAbs).map decDigitChar
  List.replicate (63 - ds.length) '0' ++ ds

/-- `ParseBase2`: `strconv.ParseInt(s, 2, 64)`. -/
def parseBase2 (s : List Char) : Except CodecErr Int := parseIntGo 2 s

/-! ## Base32 and base58 codecs -/

/-- `func (id ID) Base32() string`. -/
def idBase32 (id : Int) : List Char :=
if id = 0 then [encodeBase32Map.getD 0 'y']
else (digitsMSB 32 (toUInt64 id)).map (fun d => encodeBase32Map.getD d 'y')

/-- `func (id ID) Base58() string`. -/
def idBase58 (id : Int) : List Char :=
if id = 0 then [encodeBase58Map.getD 0 '1']
else (digitsMSB 58 (toUInt64 id)).map (fun d => encodeBase58Map.getD d '1')

/-- The per-character loop shared by `ParseBase32` and `ParseBase58`:
look the character up, guard `val > (MaxUint64 - d) / base` against
`uint64` overflow, accumulate `val*base + d`. -/
def parseBaseLoop (base : Nat) (dec : Char → Option Nat) : Nat → List Char → Except CodecErr Nat
| val, [] => .ok val
| val, c :: cs =>
  match dec c with
  | none => .error .invalidChar
  | some d =>
    if (2 ^ 64 - 1 - d) / base < val then .error .overflowU64
    else parseBaseLoop base dec (val * base + d) cs

/-- `ParseBase32`: empty and >13-character inputs are rejected, then
the loop runs, then the result must fit in a positive `int64`. -/
def parseBase32 (s : List Char) : Except CodecErr Int :=
if s.length = 0 then .error .emptyInput
else if 13 < s.length then .error .tooLong
else
  match parseBaseLoop 32 decodeBase32Map 0 s with
  | .error e => .error e
  | .ok val => if 2 ^ 63 - 1 < val then .error .overflowI64 else .ok (val : Int)

/-- `ParseBase58`: same shape with an 11-character cap. -/
def parseBase58 (s : List Char) : Except CodecErr Int :=
if s.length = 0 then .error .emptyInput
else if 11 < s.length then .error .tooLong
else
  match parseBaseLoop 58 decodeBase58Map 0 s with
  | .error e => .error e
  | .ok val => if 2 ^ 63 - 1 < val then .error .overflowI64 else .ok (val : Int)

/-! ## URL-safe base64 codec

`Base64` writes the 8 big-endian bytes of `uint64(id)` and encodes them
with `base64.RawURLEncoding` (no padding): the 64 bits followed by two
zero pad bits, i.e. the 66-bit value `u * 4`, emitted as 11 six-bit
groups.  `RawURLEncoding.DecodeString` rejects characters outside the
alphabet and lengths `≡ 1 (mod 4)`, yields `len*6/8` bytes, and (in
the default non-strict mode) discards the trailing pad bits. -/

def idBase64 (id : Int) : List Char :=
(digitsFixed 64 11 (toUInt64 id * 4)).map (fun d => encodeBase64Map.getD d 'A')

def decodeAll (dec : Char → Option Nat) : List Char → Option (List Nat)
| [] => some []
| c :: cs =>
  match dec c, decodeAll dec cs with
  | some d, some ds => some (d :: ds)
  | _, _ => none

/-- `encoding/base64` ignores carriage returns and newlines while
decoding; every other character must come from the alphabet. -/
def stripNewlines (s : List Char) : List Char :=
s.filter (fun c => !(c == '\r' || c == '\n'))

/-- `ParseBase64`: base64-decode (skipping CR/LF as Go's decoder
does), require exactly 8 decoded bytes, reject a value with the top
bit set. -/
def parseBase64 (s : List Char) : Except CodecErr Int :=
let t := stripNewlines s
if t.length % 4 = 1 then .error .corruptB64
else
  match decodeAll decodeBase64Map t with
  | none => .error .corruptB64
  | some ds =>
    if t.length * 6 / 8 ≠ 8 then .error .badLengthB64
    else
      let val := hornerFold 64 0 ds / 2 ^ (t.length * 6 - 64)
      if 2 ^ 63 - 1 < val then .error .overflowI64 else .ok (val : Int)

/-- Whether `c` is a valid digit below `base` in Go's `strconv` digit
table (used to state which characters a decimal/binary parse accepts). -/
def isGoDigit (base : Nat) (c : Char) : Bool :=
match goDigitVal c with
| none => false
| some d => decide (d < base)

/-- A decode result that is not a success. -/
def decodeFails (r : Except CodecErr Int) : Prop := ∀ v, r ≠ .ok v

/-! ## Run-level definitions used to state the generator claims -/

/-- The state `NewNode(id)` builds before options are applied. -/
def freshNode (nodeID : Int) : Node := ⟨0, nodeID, 0, 0, true⟩

/-- One `Generate` call description: the category, the entry clock
reading, and the clock oracle used inside the rollover wait loop. -/
structure GenCall where
cat : Int
now : Int
sample : Nat → Int

/-- Run a sequence of `Generate` calls, collecting every result. -/
def runGenerate (n : Node) : List GenCall → Node × List (Except GenError Int)
| [] => (n, [])
| g :: gs =>
  let r := generate g.cat g.now g.sample n
  let rest := runGenerate r.1 gs
  (rest.1, r.2 :: rest.2)

/-- State after `k` successive `GenerateWithTimestamp` calls with a
fixed category and timestamp. -/
def genATimes (c now : Int) (n : Node) : Nat → Node
| 0 => n
| k + 1 => (generateWithTimestamp c now (genATimes c now n k)).1

/-- Invariant tying a generator state to the category `c0` packed into
its `lastID` (or the pristine `lastID = 0`), for reasoning about the
reachability of the monotonicity-violation branch. -/
def GoodState (c0 : Int) (n : Node) : Prop :=
n.strict = true ∧ 0 ≤ c0 ∧ c0 ≤ 1023 ∧ 0 ≤ n.node ∧ n.node ≤ 3 ∧
0 ≤ n.time ∧ n.time ≤ TimestampMax ∧ 0 ≤ n.seq ∧ n.seq ≤ 1023 ∧
(n.lastID = 0 ∨ n.lastID = packID c0 n.time n.node n.seq)

/-- States reachable from a fresh strict generator through successful
`Generate` calls whose categories never decrease; the index is the
category of the most recent call (0 for the fresh state). -/
inductive ReachedOk : Int → Node → Prop where
| init (m : Int) (h0 : 0 ≤ m) (h1 : m ≤ 3) : ReachedOk 0 (freshNode m)
| step {c0 c now : Int} {f : Nat → Int} {n : Node} {id : Int}
    (hr : ReachedOk c0 n) (hc : c0 ≤ c) (hc2 : c ≤ 1023)
    (hok : (generate c now f n).2 = .ok id) :
    ReachedOk c (generate c now f n).1

/-! ## Arithmetic normal forms for packing and extraction -/

lemma typeMax_eq : TypeMax = 1023 := by decide

lemma timestampMax_eq : TimestampMax = 2 ^ 41 - 1 := by decide

lemma nodeMax_eq : NodeMax = 3 := by decide

lemma seqMax_eq : SeqMax = 1023 := by decide

lemma toUInt64_natCast (a : Nat) (h : a < 2 ^ 64) : toUInt64 (a : Int) = a := by
unfold toUInt64
rw [Int.emod_eq_of_lt (by positivity) (by exact_mod_cast h)]
simp

lemma ofUInt64_of_lt {u : Nat} (h : u < 2 ^ 63) : ofUInt64 u = (u : Int) := by
unfold ofUInt64
rw [if_pos h]

lemma packNat_eq (t ts m s : Nat) (_ht : t < 2 ^ 10) (hts : ts < 2 ^ 41)
    (hm : m < 2 ^ 2) (hs : s < 2 ^ 10) :
    (t <<< 53 ||| ts <<< 12 ||| m <<< 10 ||| s)
      = t * 2 ^ 53 + ts * 2 ^ 12 + m * 2 ^ 10 + s := by
have e1 : m <<< 10 ||| s = 2 ^ 10 * m + s := by
  rw [Nat.shiftLeft_eq m 10, Nat.mul_comm m (2 ^ 10)]
  exact (Nat.mul_add_lt_is_or hs m).symm
have h2 : 2 ^ 10 * m + s < 2 ^ 12 := by omega
have e2 : ts <<< 12 ||| (m <<< 10 ||| s) = 2 ^ 12 * ts + (2 ^ 10 * m + s) := by
  rw [e1, Nat.shiftLeft_eq ts 12, Nat.mul_comm ts (2 ^ 12)]
  exact (Nat.mul_add_lt_is_or h2 ts).symm
have h3 : 2 ^ 12 * ts + (2 ^ 10 * m + s) < 2 ^ 53 := by omega
have e3 : t <<< 53 ||| (ts <<< 12 ||| (m <<< 10 ||| s))
    = 2 ^ 53 * t + (2 ^ 12 * ts + (2 ^ 10 * m + s)) := by
  rw [e2, Nat.shiftLeft_eq t 53, Nat.mul_comm t (2 ^ 53)]
  exact (Nat.mul_add_lt_is_or h3 t).symm
rw [Nat.or_assoc, Nat.or_assoc, e3]
ring

lemma packID_eq_cast (a b c d : Nat) (ha : a < 2 ^ 10) (hb : b < 2 ^ 41)
    (hc : c < 2 ^ 2) (hd : d < 2 ^ 10) :
    packID (a : Int) (b : Int) (c : Int) (d : Int)
      = ((a * 2 ^ 53 + b * 2 ^ 12 + c * 2 ^ 10 + d : Nat) : Int) := by
unfold packID
rw [toUInt64_natCast a (by omega), toUInt64_natCast b (by omega),
  toUInt64_natCast c (by omega), toUInt64_natCast d (by omega)]
rw [show TypeShift = 53 from rfl, show TimeShift = 12 from rfl, show NodeShift = 10 from rfl]
rw [Nat.mod_eq_of_lt (by rw [Nat.shiftLeft_eq]; omega),
  Nat.mod_eq_of_lt (by rw [Nat.shiftLeft_eq]; omega),
  Nat.mod_eq_of_lt (by rw [Nat.shiftLeft_eq]; omega)]
rw [packNat_eq a b c d ha hb hc hd]
exact ofUInt64_of_lt (by omega)

/-- Generic mask-and-shift extraction on the `uint64` view. -/
lemma and_mask_shr (u a k : Nat) :
    (u &&& ((2 ^ a - 1) <<< k)) >>> k = u / 2 ^ k % 2 ^ a := by
have h : (u &&& ((2 ^ a - 1) <<< k)) >>> k = (u >>> k) % 2 ^ a := by
  apply Nat.eq_of_testBit_eq
  intro i
  simp [Nat.testBit_and, Nat.testBit_shiftLeft, Nat.testBit_shiftRight,
    Nat.testBit_mod_two_pow, Nat.testBit_two_pow_sub_one,
    Nat.add_sub_cancel_left, Bool.and_comm]
rw [h, Nat.shiftRight_eq_div_pow]

lemma unpack_type (u : Nat) : (u &&& TypeMask) >>> TypeShift = u / 2 ^ 53 % 2 ^ 10 := by
rw [show TypeMask = (2 ^ 10 - 1) <<< 53 from by decide, show TypeShift = 53 from rfl]
exact and_mask_shr u 10 53

lemma unpack_time (u : Nat) : (u &&& TimestampMask) >>> TimeShift = u / 2 ^ 12 % 2 ^ 41 := by
rw [show TimestampMask = (2 ^ 41 - 1) <<< 12 from by decide, show TimeShift = 12 from rfl]
exact and_mask_shr u 41 12

lemma unpack_node (u : Nat) : (u &&& NodeMask) >>> NodeShift = u / 2 ^ 10 % 2 ^ 2 := by
rw [show NodeMask = (2 ^ 2 - 1) <<< 10 from by decide, show NodeShift = 10 from rfl]
exact and_mask_shr u 2 10

lemma unpack_seq (u : Nat) : u &&& SeqMask = u % 2 ^ 10 := by
rw [show SeqMask = 2 ^ 10 - 1 from by decide]
exact Nat.and_pow_two_sub_one_eq_mod u 10

/-- Extracting each field of a packed value recovers the field. -/
lemma lem_extract_packed (t ts m s : Int)
    (ht0 : 0 ≤ t) (ht : t ≤ TypeMax) (hts0 : 0 ≤ ts) (hts : ts ≤ TimestampMax)
    (hm0 : 0 ≤ m) (hm : m ≤ NodeMax) (hs0 : 0 ≤ s) (hs : s ≤ SeqMax) :
    idTypeOf (packID t ts m s) = t ∧ idTimeOffset (packID t ts m s) = ts ∧
    idNode (packID t ts m s) = m ∧ idSeq (packID t ts m s) = s := by
rw [typeMax_eq] at ht
rw [timestampMax_eq] at hts
rw [nodeMax_eq] at hm
rw [seqMax_eq] at hs
lift t to ℕ using ht0 with a
lift ts to ℕ using hts0 with b
lift m to ℕ using hm0 with c
lift s to ℕ using hs0 with d
have ha : a < 2 ^ 10 := by omega
have hb : b < 2 ^ 41 := by omega
have hc : c < 2 ^ 2 := by omega
have hd : d < 2 ^ 10 := by omega
rw [packID_eq_cast a b c d ha hb hc hd]
unfold idTypeOf idTimeOffset idNode idSeq
rw [toUInt64_natCast _ (by omega)]
rw [unpack_type, unpack_time, unpack_node, unpack_seq]
refine ⟨by omega, by omega, by omega, by omega⟩

/-- A packed value with in-range fields, as an integer. -/
lemma lem_packID_sum (t ts m s : Int)
    (ht0 : 0 ≤ t) (ht : t ≤ TypeMax) (hts0 : 0 ≤ ts) (hts : ts ≤ TimestampMax)
    (hm0 : 0 ≤ m) (hm : m ≤ NodeMax) (hs0 : 0 ≤ s) (hs : s ≤ SeqMax) :
    packID t ts m s = t * 2 ^ 53 + ts * 2 ^ 12 + m * 2 ^ 10 + s := by
rw [typeMax_eq] at ht
rw [timestampMax_eq] at hts
rw [nodeMax_eq] at hm
rw [seqMax_eq] at hs
lift t to ℕ using ht0 with a
lift ts to ℕ using hts0 with b
lift m to ℕ using hm0 with c
lift s to ℕ using hs0 with d
rw [packID_eq_cast a b c d (by omega) (by omega) (by omega) (by omega)]
push_cast
ring

/-! ## Claims C3 and C4: field round-trip and the concrete packing scenario -/

/-- C3: for all category in [0,1023], timestampOffset in [0, 2^41-1],
node in [0,3] and sequence in [0,1023], packing the four fields and
then unpacking the identifier returns exactly the same four field
values (`Components` reports the timestamp as offset plus `Epoch`). -/
theorem C3_pack_unpack_round_trip (t ts m s : Int)
    (ht0 : 0 ≤ t) (ht : t ≤ 1023) (hts0 : 0 ≤ ts) (hts : ts ≤ 2 ^ 41 - 1)
    (hm0 : 0 ≤ m) (hm : m ≤ 3) (hs0 : 0 ≤ s) (hs : s ≤ 1023) :
    idTypeOf (packID t ts m s) = t ∧ idTimeOffset (packID t ts m s) = ts ∧
    idNode (packID t ts m s) = m ∧ idSeq (packID t ts m s) = s ∧
    components (packID t ts m s) = (t, ts + Epoch, m, s) := by
have h := lem_extract_packed t ts m s ht0 (by rw [typeMax_eq]; exact ht)
  hts0 (by rw [timestampMax_eq]; exact hts) hm0 (by rw [nodeMax_eq]; exact hm)
  hs0 (by rw [seqMax_eq]; exact hs)
obtain ⟨h1, h2, h3, h4⟩ := h
refine ⟨h1, h2, h3, h4, ?_⟩
unfold components idTime
rw [h1, h2, h3, h4]

theorem C3_pack_unpack_round_trip_witness :
    (0 : Int) ≤ 7 ∧ (7 : Int) ≤ 1023 ∧
    (idTypeOf (packID 7 123 2 45) = 7 ∧ idTimeOffset (packID 7 123 2 45) = 123 ∧
      idNode (packID 7 123 2 45) = 2 ∧ idSeq (packID 7 123 2 45) = 45 ∧
      components (packID 7 123 2 45) = (7, 123 + Epoch, 2, 45)) :=
⟨by decide, by decide,
  C3_pack_unpack_round_trip 7 123 2 45 (by decide) (by decide) (by decide) (by decide)
    (by decide) (by decide) (by decide) (by decide)⟩

/-- C4: with the epoch constant 1735718400000, packing
`(category=1, timestampOffset=0, node=0, sequence=0)` yields
`9007199254740992 = 1 <<< 53`, and unpacking `9007199254740992`
yields the fields `(1, 0, 0, 0)`. -/
theorem C4_concrete_scenario :
    Epoch = 1735718400000 ∧
    packID 1 0 0 0 = 9007199254740992 ∧
    (9007199254740992 : Int) = ((1 <<< 53 : Nat) : Int) ∧
    idTypeOf 9007199254740992 = 1 ∧ idTimeOffset 9007199254740992 = 0 ∧
    idNode 9007199254740992 = 0 ∧ idSeq 9007199254740992 = 0 := by
refine ⟨rfl, by decide, by decide, by decide, by decide, by decide, by decide⟩

/-! ## Behaviour of the generator primitives -/

/-- On success, `generateInternal` passed the ceiling check, produced
the packed ID, recorded it together with the timestamp, and (under
strict checks) the ID is strictly above the previous `lastID`. -/
lemma lem_internal_ok {c now : Int} {n : Node} {id : Int}
    (h : (generateInternal c now n).2 = .ok id) :
    now ≤ TimestampMax ∧ id = packID c now n.node n.seq ∧
    (generateInternal c now n).1 = { n with time := now, lastID := id } ∧
    (n.strict = true → n.lastID < id) := by
simp only [generateInternal] at h ⊢
split_ifs at h ⊢ with h1 h2
all_goals simp at h
subst h
refine ⟨by omega, rfl, rfl, ?_⟩
intro hs
rw [not_and_or] at h2
rcases h2 with h2 | h2
· exact absurd hs h2
· omega

/-- `generateInternal` never changes `lastID` on an error. -/
lemma lem_internal_lastID_of_err {c now : Int} {n : Node} {e : GenError}
    (h : (generateInternal c now n).2 = .error e) :
    (generateInternal c now n).1.lastID = n.lastID := by
simp only [generateInternal] at h ⊢
split_ifs at h ⊢ with h1 h2
all_goals rfl

/-- The wait loop only succeeds with a strictly later clock reading. -/
lemma lem_rolloverWaitAux_ok {t : Int} {f : Nat → Int} {fresh : Int} :
    ∀ fuel i, rolloverWaitAux t f fuel i = .ok fresh → t < fresh := by
intro fuel
induction fuel with
| zero => intro i h; simp [rolloverWaitAux] at h
| succ k ih =>
  intro i h
  unfold rolloverWaitAux at h
  split_ifs at h with h1
  · simp only [Except.ok.injEq] at h
    omega
  · exact ih (i + 1) h

lemma lem_rolloverWait_ok {t : Int} {f : Nat → Int} {fresh : Int}
    (h : rolloverWait t f = .ok fresh) : t < fresh :=
lem_rolloverWaitAux_ok maxRolloverWaitAttempts 0 h

/-- The wait loop can only fail with `clockStalled`. -/
lemma lem_rolloverWaitAux_err {t : Int} {f : Nat → Int} {e : GenError} :
    ∀ fuel i, rolloverWaitAux t f fuel i = .error e → e = .clockStalled := by
intro fuel
induction fuel with
| zero =>
  intro i h
  simp only [rolloverWaitAux, Except.error.injEq] at h
  exact h.symm
| succ k ih =>
  intro i h
  unfold rolloverWaitAux at h
  split_ifs at h with h1
  exact ih (i + 1) h

lemma lem_rolloverWait_err {t : Int} {f : Nat → Int} {e : GenError}
    (h : rolloverWait t f = .error e) : e = .clockStalled :=
lem_rolloverWaitAux_err maxRolloverWaitAttempts 0 h

/-- `generateInternal` cannot fail with a monotonicity violation when
the would-be packed value strictly exceeds `lastID`. -/
lemma lem_internal_ne_mono {c now : Int} {n : Node}
    (hgt : ¬ TimestampMax < now → n.lastID < packID c now n.node n.seq) :
    (generateInternal c now n).2 ≠ .error .monotonicityViolation := by
simp only [generateInternal]
split_ifs with h1 h2
· simp
· exact absurd (hgt h1) (by omega)
· simp

/-- Full characterisation of a successful `Generate` call. -/
lemma lem_generate_ok_cases {c now : Int} {f : Nat → Int} {n n' : Node} {id : Int}
    (h : generate c now f n = (n', .ok id)) :
    ¬ TypeMax < c ∧ ∃ now' s',
      n' = { n with time := now', seq := s', lastID := id } ∧
      id = packID c now' n.node s' ∧ now' ≤ TimestampMax ∧ n.time ≤ now' ∧
      (n.strict = true → n.lastID < id) ∧
      ((now' = n.time ∧ s' = (n.seq + 1) % 1024 ∧ s' ≠ 0) ∨
        (n.time < now' ∧ s' = 0)) := by
simp only [generate] at h
set nw : Int := if now < n.time then n.time else now with hnw
have hge : n.time ≤ nw := by rw [hnw]; split_ifs <;> omega
split_ifs at h with h1 h2 h3
· simp at h
· -- same millisecond, sequence wrapped: rollover wait
  rcases hr : rolloverWait n.time f with e | fresh
  · rw [hr] at h
    simp at h
  · rw [hr] at h
    dsimp only at h
    have hfr := lem_rolloverWait_ok hr
    have hsnd : (generateInternal c fresh { n with seq := (n.seq + 1) % 1024 }).2 = .ok id := by
      rw [h]
    have hfst : (generateInternal c fresh { n with seq := (n.seq + 1) % 1024 }).1 = n' := by
      rw [h]
    obtain ⟨hov, hid, hst, hmono⟩ := lem_internal_ok hsnd
    refine ⟨h1, fresh, 0, ?_, ?_, hov, by omega, fun hs => hmono hs, Or.inr ⟨hfr, rfl⟩⟩
    · rw [← hfst, hst, h3]
    · rw [hid, h3]
· -- same millisecond, sequence not exhausted
  have hsnd : (generateInternal c nw { n with seq := (n.seq + 1) % 1024 }).2 = .ok id := by
    rw [h]
  have hfst : (generateInternal c nw { n with seq := (n.seq + 1) % 1024 }).1 = n' := by
    rw [h]
  obtain ⟨hov, hid, hst, hmono⟩ := lem_internal_ok hsnd
  refine ⟨h1, nw, (n.seq + 1) % 1024, ?_, hid, hov, hge, fun hs => hmono hs,
    Or.inl ⟨h2, rfl, h3⟩⟩
  rw [← hfst, hst]
· -- new millisecond
  have hsnd : (generateInternal c nw { n with seq := 0 }).2 = .ok id := by
    rw [h]
  have hfst : (generateInternal c nw { n with seq := 0 }).1 = n' := by
    rw [h]
  obtain ⟨hov, hid, hst, hmono⟩ := lem_internal_ok hsnd
  refine ⟨h1, nw, 0, ?_, hid, hov, hge, fun hs => hmono hs, Or.inr ⟨by omega, rfl⟩⟩
  rw [← hfst, hst]

/-- A failing `Generate` call never changes `lastID`. -/
lemma lem_generate_err_lastID {c now : Int} {f : Nat → Int} {n n' : Node} {e : GenError}
    (h : generate c now f n = (n', .error e)) : n'.lastID = n.lastID := by
simp only [generate] at h
set nw : Int := if now < n.time then n.time else now with hnw
split_ifs at h with h1 h2 h3
· rw [show n' = n from by rw [Prod.mk.injEq] at h; exact h.1.symm]
· rcases hr : rolloverWait n.time f with e0 | fresh
  · rw [hr] at h
    dsimp only at h
    rw [Prod.mk.injEq] at h
    rw [← h.1]
  · rw [hr] at h
    dsimp only at h
    have hsnd : (generateInternal c fresh { n with seq := (n.seq + 1) % 1024 }).2 = .error e := by
      rw [h]
    have := lem_internal_lastID_of_err hsnd
    rw [show n' = (generateInternal c fresh { n with seq := (n.seq + 1) % 1024 }).1 from by rw [h]]
    rw [this]
· have hsnd : (generateInternal c nw { n with seq := (n.seq + 1) % 1024 }).2 = .error e := by
    rw [h]
  have := lem_internal_lastID_of_err hsnd
  rw [show n' = (generateInternal c nw { n with seq := (n.seq + 1) % 1024 }).1 from by rw [h]]
  rw [this]
· have hsnd : (generateInternal c nw { n with seq := 0 }).2 = .error e := by
    rw [h]
  have := lem_internal_lastID_of_err hsnd
  rw [show n' = (generateInternal c nw { n with seq := 0 }).1 from by rw [h]]
  rw [this]

/-- Full characterisation of a successful `GenerateWithTimestamp` call. -/
lemma lem_genT_ok_cases {c now : Int} {n n' : Node} {id : Int}
    (h : generateWithTimestamp c now n = (n', .ok id)) :
    ¬ TypeMax < c ∧ ∃ s',
      n' = { n with time := now, seq := s', lastID := id } ∧
      id = packID c now n.node s' ∧ now ≤ TimestampMax ∧
      (n.strict = true → n.lastID < id) ∧
      ((now = n.time ∧ s' = (n.seq + 1) % 1024 ∧ s' ≠ 0) ∨
        (now ≠ n.time ∧ s' = 0)) := by
simp only [generateWithTimestamp] at h
split_ifs at h with h1 h2 h3
· simp at h
· simp at h
· have hsnd : (generateInternal c now { n with seq := (n.seq + 1) % 1024 }).2 = .ok id := by
    rw [h]
  have hfst : (generateInternal c now { n with seq := (n.seq + 1) % 1024 }).1 = n' := by
    rw [h]
  obtain ⟨hov, hid, hst, hmono⟩ := lem_internal_ok hsnd
  exact ⟨h1, (n.seq + 1) % 1024, by rw [← hfst, hst], hid, hov,
    fun hs => hmono hs, Or.inl ⟨h2, rfl, h3⟩⟩
· have hsnd : (generateInternal c now { n with seq := 0 }).2 = .ok id := by
    rw [h]
  have hfst : (generateInternal c now { n with seq := 0 }).1 = n' := by
    rw [h]
  obtain ⟨hov, hid, hst, hmono⟩ := lem_internal_ok hsnd
  exact ⟨h1, 0, by rw [← hfst, hst], hid, hov, fun hs => hmono hs, Or.inr ⟨h2, rfl⟩⟩

/-- A failing `GenerateWithTimestamp` call never changes `lastID`. -/
lemma lem_genT_err_lastID {c now : Int} {n n' : Node} {e : GenError}
    (h : generateWithTimestamp c now n = (n', .error e)) : n'.lastID = n.lastID := by
simp only [generateWithTimestamp] at h
split_ifs at h with h1 h2 h3
· rw [Prod.mk.injEq] at h
  rw [← h.1]
· rw [Prod.mk.injEq] at h
  rw [← h.1]
· have hsnd : (generateInternal c now { n with seq := (n.seq + 1) % 1024 }).2 = .error e := by
    rw [h]
  have := lem_internal_lastID_of_err hsnd
  rw [show n' = (generateInternal c now { n with seq := (n.seq + 1) % 1024 }).1 from by rw [h]]
  rw [this]
· have hsnd : (generateInternal c now { n with seq := 0 }).2 = .error e := by
    rw [h]
  have := lem_internal_lastID_of_err hsnd
  rw [show n' = (generateInternal c now { n with seq := 0 }).1 from by rw [h]]
  rw [this]

/-- Forward evaluation of `GenerateWithTimestamp`, same-millisecond
branch without wraparound. -/
lemma lem_genT_eval_same {c now : Int} {n : Node}
    (hT : ¬ TypeMax < c) (hsame : now = n.time) (hnz : ¬ (n.seq + 1) % 1024 = 0)
    (hov : ¬ TimestampMax < now)
    (hmono : ¬ (n.strict = true ∧ packID c now n.node ((n.seq + 1) % 1024) ≤ n.lastID)) :
    generateWithTimestamp c now n =
      ({ n with
          time := now
          seq := (n.seq + 1) % 1024
          lastID := packID c now n.node ((n.seq + 1) % 1024) },
        .ok (packID c now n.node ((n.seq + 1) % 1024))) := by
simp only [generateWithTimestamp, generateInternal]
rw [if_neg hT, if_pos hsame, if_neg hnz, if_neg hov, if_neg hmono]

/-- Forward evaluation of `GenerateWithTimestamp`, new-millisecond
branch. -/
lemma lem_genT_eval_new {c now : Int} {n : Node}
    (hT : ¬ TypeMax < c) (hne : ¬ now = n.time) (hov : ¬ TimestampMax < now)
    (hmono : ¬ (n.strict = true ∧ packID c now n.node 0 ≤ n.lastID)) :
    generateWithTimestamp c now n =
      ({ n with time := now, seq := 0, lastID := packID c now n.node 0 },
        .ok (packID c now n.node 0)) := by
simp only [generateWithTimestamp, generateInternal]
rw [if_neg hT, if_neg hne, if_neg hov, if_neg hmono]

/-- Forward evaluation of `GenerateWithTimestamp`, sequence
exhaustion. -/
lemma lem_genT_eval_exhaust {c now : Int} {n : Node}
    (hT : ¬ TypeMax < c) (hsame : now = n.time) (hz : (n.seq + 1) % 1024 = 0) :
    generateWithTimestamp c now n =
      ({ n with seq := (n.seq + 1) % 1024 }, .error .sequenceExhausted) := by
simp only [generateWithTimestamp]
rw [if_neg hT, if_pos hsame, if_pos hz]

/-! ## Claims C5 and C1: error-path state and strict monotonicity -/

/-- C5 counterexample: a `GenerateWithTimestamp` call that fails with
`MonotonicityViolation` still mutates the stored timestamp offset
(from 1 to 2), so the generator state is not left exactly as it was
before the failing call. -/
theorem C5_counterexample :
    (generateWithTimestamp 0 2 (generateWithTimestamp 1 1 (freshNode 0)).1).2
        = .error .monotonicityViolation ∧
    (generateWithTimestamp 1 1 (freshNode 0)).1.time = 1 ∧
    (generateWithTimestamp 0 2 (generateWithTimestamp 1 1 (freshNode 0)).1).1.time = 2 := by
refine ⟨rfl, rfl, rfl⟩

/-- C5 amended: whenever `Generate` or `GenerateWithTimestamp` returns
an error, `last_identifier` is left unchanged (its mutation only
commits after the packed value passes the checks); the timestamp and
sequence fields, however, may already have been updated. -/
theorem C5_error_preserves_last_identifier (c now : Int) (f : Nat → Int)
    (n n' : Node) (e : GenError) :
    (generate c now f n = (n', .error e) → n'.lastID = n.lastID) ∧
    (generateWithTimestamp c now n = (n', .error e) → n'.lastID = n.lastID) :=
⟨fun h => lem_generate_err_lastID h, fun h => lem_genT_err_lastID h⟩

theorem C5_error_preserves_last_identifier_witness :
    generateWithTimestamp 0 2 (generateWithTimestamp 1 1 (freshNode 0)).1
        = ((generateWithTimestamp 0 2 (generateWithTimestamp 1 1 (freshNode 0)).1).1,
          .error .monotonicityViolation) ∧
    (generateWithTimestamp 0 2 (generateWithTimestamp 1 1 (freshNode 0)).1).1.lastID
        = (generateWithTimestamp 1 1 (freshNode 0)).1.lastID :=
⟨rfl,
  (C5_error_preserves_last_identifier 0 2 (fun _ => 0)
    (generateWithTimestamp 1 1 (freshNode 0)).1
    (generateWithTimestamp 0 2 (generateWithTimestamp 1 1 (freshNode 0)).1).1
    .monotonicityViolation).2 rfl⟩

/-- In a run whose results are all successes, the outputs chain
strictly upward from the starting `lastID`. -/
lemma lem_run_chain : ∀ (gs : List GenCall) (n : Node) (ids : List Int),
    n.strict = true → (runGenerate n gs).2 = ids.map Except.ok →
    List.Chain' (· < ·) (n.lastID :: ids) := by
intro gs
induction gs with
| nil =>
  intro n ids _ hrun
  simp only [runGenerate] at hrun
  have : ids = [] := by
    cases ids with
    | nil => rfl
    | cons a l => simp at hrun
  subst this
  simp
| cons g gs ih =>
  intro n ids hstrict hrun
  simp only [runGenerate] at hrun
  cases ids with
  | nil => simp at hrun
  | cons idh idt =>
    simp only [List.map_cons, List.cons.injEq] at hrun
    obtain ⟨h1, h2⟩ := hrun
    have hp : generate g.cat g.now g.sample n
        = ((generate g.cat g.now g.sample n).1, (generate g.cat g.now g.sample n).2) := rfl
    rw [h1] at hp
    obtain ⟨-, now', s', hst, -, -, -, hmono, -⟩ := lem_generate_ok_cases hp
    have hlt : n.lastID < idh := hmono hstrict
    have hstrict2 : (generate g.cat g.now g.sample n).1.strict = true := by
      rw [hst]
      exact hstrict
    have hlast2 : (generate g.cat g.now g.sample n).1.lastID = idh := by
      rw [hst]
    have ihh := ih (generate g.cat g.now g.sample n).1 idt hstrict2 h2
    rw [hlast2] at ihh
    exact List.chain'_cons.mpr ⟨hlt, ihh⟩

/-- C1: for a strict generator, a successful `Generate` call returns a
value strictly greater than the stored `last_identifier` and records
it as the new `last_identifier`; consequently every all-successful run
of `Generate` calls returns strictly increasing identifiers. -/
theorem C1_strict_monotonicity (n : Node) (hstrict : n.strict = true) :
    (∀ c now f n' id, generate c now f n = (n', .ok id) →
      n.lastID < id ∧ n'.lastID = id) ∧
    (∀ gs ids, (runGenerate n gs).2 = ids.map Except.ok →
      List.Chain' (· < ·) (n.lastID :: ids)) := by
constructor
· intro c now f n' id h
  obtain ⟨-, now', s', hst, -, -, -, hmono, -⟩ := lem_generate_ok_cases h
  exact ⟨hmono hstrict, by rw [hst]⟩
· intro gs ids h
  exact lem_run_chain gs n ids hstrict h

theorem C1_strict_monotonicity_witness :
    (freshNode 0).strict = true ∧
    List.Chain' (· < ·) ((freshNode 0).lastID :: [packID 1 1 0 0, packID 1 2 0 0]) :=
⟨rfl,
  (C1_strict_monotonicity (freshNode 0) rfl).2
    [⟨1, 1, fun _ => 0⟩, ⟨1, 2, fun _ => 0⟩] [packID 1 1 0 0, packID 1 2 0 0] rfl⟩

/-! ## Claim C6: reachability of the monotonicity-violation branch -/

/-- Bounds of the wrapped sequence increment. -/
lemma lem_emod_bounds (a : Int) : 0 ≤ a % 1024 ∧ a % 1024 ≤ 1023 := by
have h1 := Int.emod_nonneg a (show (1024 : Int) ≠ 0 by omega)
have h2 := Int.emod_lt_of_pos a (show (0 : Int) < 1024 by omega)
omega

/-- Comparison of a fresh packed value against the recorded `lastID`
of a good state, for a non-decreasing category. -/
lemma lem_pack_gt {c0 c time node seq now' s' lastID : Int}
    (hc0 : 0 ≤ c0) (hc : c0 ≤ c) (hc2 : c ≤ 1023)
    (hn0 : 0 ≤ node) (hn1 : node ≤ 3)
    (ht0 : 0 ≤ time) (ht1 : time ≤ TimestampMax)
    (hs0 : 0 ≤ seq) (hs1 : seq ≤ 1023)
    (hw0 : 0 ≤ now') (hw1 : now' ≤ TimestampMax)
    (hp0 : 0 ≤ s') (hp1 : s' ≤ 1023)
    (hlast : lastID = 0 ∨ lastID = packID c0 time node seq)
    (hcase : (now' = time ∧ s' = seq + 1) ∨ time < now') :
    lastID < packID c now' node s' := by
rw [timestampMax_eq] at ht1 hw1
have hnew := lem_packID_sum c now' node s' (by omega) (by rw [typeMax_eq]; omega)
  hw0 (by rw [timestampMax_eq]; omega) hn0 (by rw [nodeMax_eq]; omega)
  hp0 (by rw [seqMax_eq]; omega)
have hold := lem_packID_sum c0 time node seq hc0 (by rw [typeMax_eq]; omega)
  ht0 (by rw [timestampMax_eq]; omega) hn0 (by rw [nodeMax_eq]; omega)
  hs0 (by rw [seqMax_eq]; omega)
rw [hnew]
rcases hlast with h | h <;> rw [h] <;> [skip; rw [hold]] <;>
  rcases hcase with ⟨hc1, hc2'⟩ | hc1 <;> omega

/-- From a good state with a non-decreasing in-range category, the
monotonicity-violation branch of `Generate` is unreachable. -/
lemma lem_generate_no_mono {c0 c now : Int} {f : Nat → Int} {n : Node}
    (hg : GoodState c0 n) (hc : c0 ≤ c) (hc2 : c ≤ 1023) :
    (generate c now f n).2 ≠ .error .monotonicityViolation := by
obtain ⟨hstrict, hc00, hc01, hn0, hn1, ht0, ht1, hs0, hs1, hlast⟩ := hg
simp only [generate]
set nw : Int := if now < n.time then n.time else now with hnw
have hge : n.time ≤ nw := by rw [hnw]; split_ifs <;> omega
split_ifs with h1 h2 h3
· simp
· rcases hr : rolloverWait n.time f with e | fresh
  · dsimp only
    have he := lem_rolloverWait_err hr
    subst he
    simp
  · dsimp only
    have hfr := lem_rolloverWait_ok hr
    apply lem_internal_ne_mono
    intro hov
    dsimp only at hov ⊢
    exact lem_pack_gt hc00 hc hc2 hn0 hn1 ht0 ht1 hs0 hs1 (by omega) (by omega)
      (lem_emod_bounds (n.seq + 1)).1 (lem_emod_bounds (n.seq + 1)).2
      hlast (Or.inr hfr)
· apply lem_internal_ne_mono
  intro hov
  dsimp only at hov ⊢
  rw [h2] at hov ⊢
  exact lem_pack_gt hc00 hc hc2 hn0 hn1 ht0 ht1 hs0 hs1 ht0 (by omega)
    (lem_emod_bounds (n.seq + 1)).1 (lem_emod_bounds (n.seq + 1)).2
    hlast (Or.inl ⟨rfl, by omega⟩)
· apply lem_internal_ne_mono
  intro hov
  dsimp only at hov ⊢
  exact lem_pack_gt hc00 hc hc2 hn0 hn1 ht0 ht1 hs0 hs1 (by omega) (by omega)
    (by omega) (by omega) hlast (Or.inr (by omega))

/-- A successful `Generate` call preserves goodness, re-indexed by the
category just used. -/
lemma lem_generate_step_good {c0 c now : Int} {f : Nat → Int} {n n' : Node} {id : Int}
    (hg : GoodState c0 n) (hc : c0 ≤ c) (hc2 : c ≤ 1023)
    (h : generate c now f n = (n', .ok id)) : GoodState c n' := by
obtain ⟨hstrict, hc00, hc01, hn0, hn1, ht0, ht1, hs0, hs1, hlast⟩ := hg
obtain ⟨-, now', s', hst, hid, hov, hgenow, -, hcase⟩ := lem_generate_ok_cases h
have hs' : 0 ≤ s' ∧ s' ≤ 1023 := by
  rcases hcase with ⟨-, hs', -⟩ | ⟨-, hs'⟩
  · rw [hs']
    exact lem_emod_bounds (n.seq + 1)
  · rw [hs']
    omega
subst hst
have hcge : 0 ≤ c := by omega
have htt : 0 ≤ now' := by omega
exact ⟨hstrict, hcge, hc2, hn0, hn1, htt, hov, hs'.1, hs'.2, Or.inr hid⟩

/-- Every state reached through successful non-decreasing-category
`Generate` calls is good. -/
lemma lem_reached_good {c0 : Int} {n : Node} (h : ReachedOk c0 n) : GoodState c0 n := by
induction h with
| init m h0 h1 =>
  have hTm : (0 : Int) ≤ TimestampMax := by rw [timestampMax_eq]; omega
  have h1023 : (0 : Int) ≤ 1023 := by omega
  exact ⟨rfl, le_refl 0, h1023, h0, h1, le_refl 0, hTm, le_refl 0, h1023, Or.inl rfl⟩
| step hr hc hc2 hok ih =>
  rename_i c0' c now f n0 id
  have hp : generate c now f n0 = ((generate c now f n0).1, (generate c now f n0).2) := rfl
  rw [hok] at hp
  exact lem_generate_step_good ih hc hc2 hp

/-- C6 counterexample: the violation branch is reachable.  From a
fresh strict generator, a successful `Generate` with category 1 and a
later `Generate` with the smaller category 0 hits the
`MonotonicityViolation` branch even though steps 1-6 all ran as
specified. -/
theorem C6_counterexample :
    (generate 1 1 (fun _ => 0) (freshNode 0)).2 = .ok (packID 1 1 0 0) ∧
    (generate 0 2 (fun _ => 0) (generate 1 1 (fun _ => 0) (freshNode 0)).1).2
      = .error .monotonicityViolation :=
⟨rfl, rfl⟩

/-- C6 amended: with strict monotonicity enabled, the
`MonotonicityViolation` branch is unreachable in every `Generate` call
made from a state reached through successful `Generate` calls, as long
as the categories used never decrease. -/
theorem C6_violation_branch_unreachable (c0 c now : Int) (f : Nat → Int) (n : Node)
    (hr : ReachedOk c0 n) (hc : c0 ≤ c) (hc2 : c ≤ 1023) :
    (generate c now f n).2 ≠ .error .monotonicityViolation :=
lem_generate_no_mono (lem_reached_good hr) hc hc2

theorem C6_violation_branch_unreachable_witness :
    ((0 : Int) ≤ 0 ∧ (0 : Int) ≤ 1023) ∧
    (generate 0 5 (fun _ => 0) (freshNode 2)).2 ≠ .error .monotonicityViolation :=
⟨⟨by decide, by decide⟩,
  C6_violation_branch_unreachable 0 0 5 (fun _ => 0) (freshNode 2)
    (ReachedOk.init 2 (by decide) (by decide)) (by decide) (by decide)⟩

/-! ## Claim C9: the first call at the epoch itself yields sequence 1 -/

/-- A packed value with in-range fields is strictly positive once any
field is positive. -/
lemma lem_pack_pos {t ts m s : Int}
    (ht0 : 0 ≤ t) (ht : t ≤ 1023) (hts0 : 0 ≤ ts) (hts : ts ≤ 2 ^ 41 - 1)
    (hm0 : 0 ≤ m) (hm : m ≤ 3) (hs0 : 0 ≤ s) (hs : s ≤ 1023)
    (hpos : 0 < ts + s) : 0 < packID t ts m s := by
rw [lem_packID_sum t ts m s ht0 (by rw [typeMax_eq]; omega) hts0
  (by rw [timestampMax_eq]; omega) hm0 (by rw [nodeMax_eq]; omega)
  hs0 (by rw [seqMax_eq]; omega)]
omega

/-- C9: a fresh generator starts with timestamp offset 0 and sequence 0,
so the very first `GenerateWithTimestamp` call at the epoch itself
(offset 0) takes the same-millisecond branch and returns sequence 1,
while a first call strictly after the epoch returns sequence 0. -/
theorem C9_fresh_state_epoch_quirk (m t now : Int)
    (hm0 : 0 ≤ m) (hm1 : m ≤ 3) (ht0 : 0 ≤ t) (ht1 : t ≤ 1023)
    (hw0 : 0 < now) (hw1 : now ≤ 2 ^ 41 - 1) :
    newNode m [] = .ok (freshNode m) ∧
    (freshNode m).time = 0 ∧ (freshNode m).seq = 0 ∧
    (∃ id, (generateWithTimestamp t 0 (freshNode m)).2 = .ok id ∧ idSeq id = 1) ∧
    (∃ id, (generateWithTimestamp t now (freshNode m)).2 = .ok id ∧ idSeq id = 0) := by
have hTle : ¬ TypeMax < t := by rw [typeMax_eq]; omega
have hov0 : ¬ TimestampMax < (0 : Int) := by rw [timestampMax_eq]; omega
have hovn : ¬ TimestampMax < now := by rw [timestampMax_eq]; omega
have hnn : newNode m [] = .ok (freshNode m) := by
  rw [newNode, if_neg (by rw [nodeMax_eq]; omega)]
  rfl
refine ⟨hnn, rfl, rfl, ?_, ?_⟩
· have hmono : ¬ ((freshNode m).strict = true ∧
      packID t 0 (freshNode m).node (((freshNode m).seq + 1) % 1024)
        ≤ (freshNode m).lastID) := by
    simp only [freshNode]
    intro hcon
    have hle := hcon.2
    norm_num at hle
    have := @lem_pack_pos t 0 m 1 ht0 ht1 (le_refl 0) (by omega) hm0 hm1
      (by omega) (by omega) (by omega)
    omega
  have e1 := lem_genT_eval_same hTle (show (0 : Int) = (freshNode m).time from rfl)
    (by norm_num [freshNode]) hov0 hmono
  refine ⟨packID t 0 m 1, ?_, ?_⟩
  · rw [e1]
    norm_num [freshNode]
  · exact (lem_extract_packed t 0 m 1 ht0 (by rw [typeMax_eq]; omega) (le_refl 0)
      (by rw [timestampMax_eq]; omega) hm0 (by rw [nodeMax_eq]; omega)
      (by omega) (by rw [seqMax_eq]; omega)).2.2.2
· have hmono : ¬ ((freshNode m).strict = true ∧
      packID t now (freshNode m).node 0 ≤ (freshNode m).lastID) := by
    simp only [freshNode]
    intro hcon
    have hle := hcon.2
    norm_num at hle
    have := @lem_pack_pos t now m 0 ht0 ht1 (by omega) (by omega) hm0 hm1
      (le_refl 0) (by omega) (by omega)
    omega
  have e2 := lem_genT_eval_new hTle (by norm_num [freshNode]; omega) hovn hmono
  refine ⟨packID t now m 0, ?_, ?_⟩
  · rw [e2]
    norm_num [freshNode]
  · exact (lem_extract_packed t now m 0 ht0 (by rw [typeMax_eq]; omega) (by omega)
      (by rw [timestampMax_eq]; omega) hm0 (by rw [nodeMax_eq]; omega)
      (le_refl 0) (by rw [seqMax_eq]; omega)).2.2.2

theorem C9_fresh_state_epoch_quirk_witness :
    ((0 : Int) ≤ 0 ∧ (0 : Int) < 7) ∧
    (newNode 0 [] = .ok (freshNode 0) ∧
      (freshNode 0).time = 0 ∧ (freshNode 0).seq = 0 ∧
      (∃ id, (generateWithTimestamp 3 0 (freshNode 0)).2 = .ok id ∧ idSeq id = 1) ∧
      (∃ id, (generateWithTimestamp 3 7 (freshNode 0)).2 = .ok id ∧ idSeq id = 0)) :=
⟨⟨by decide, by decide⟩,
  C9_fresh_state_epoch_quirk 0 3 7 (by decide) (by decide) (by decide) (by decide)
    (by decide) (by decide)⟩

/-! ## Claim C7: sequence exhaustion with a fixed timestamp -/

lemma lem_pack_succ_gt {t now m q : Int}
    (ht0 : 0 ≤ t) (ht1 : t ≤ 1023) (hw0 : 0 ≤ now) (hw1 : now ≤ 2 ^ 41 - 1)
    (hm0 : 0 ≤ m) (hm1 : m ≤ 3) (hq0 : 0 ≤ q) (hq1 : q ≤ 1022) :
    packID t now m q < packID t now m (q + 1) := by
rw [lem_packID_sum t now m q ht0 (by rw [typeMax_eq]; omega) hw0
  (by rw [timestampMax_eq]; omega) hm0 (by rw [nodeMax_eq]; omega)
  hq0 (by rw [seqMax_eq]; omega)]
rw [lem_packID_sum t now m (q + 1) ht0 (by rw [typeMax_eq]; omega) hw0
  (by rw [timestampMax_eq]; omega) hm0 (by rw [nodeMax_eq]; omega)
  (by omega) (by rw [seqMax_eq]; omega)]
omega

/-- After `k ∈ [1, 1024]` fixed-timestamp calls on a fresh generator,
the state records the timestamp, sequence `k - 1`, and the matching
packed `lastID`. -/
lemma lem_genATimes_state (t now m : Int)
    (ht0 : 0 ≤ t) (ht1 : t ≤ 1023) (hm0 : 0 ≤ m) (hm1 : m ≤ 3)
    (hw0 : 0 < now) (hw1 : now ≤ TimestampMax) :
    ∀ k : Nat, 1 ≤ k → k ≤ 1024 →
      genATimes t now (freshNode m) k
        = ⟨packID t now m ((k : Int) - 1), m, now, (k : Int) - 1, true⟩ := by
have hTle : ¬ TypeMax < t := by rw [typeMax_eq]; omega
have hov : ¬ TimestampMax < now := by omega
have hwM : now ≤ 2 ^ 41 - 1 := by rw [timestampMax_eq] at hw1; omega
intro k
induction k with
| zero =>
  intro h1 h2
  omega
| succ k ih =>
  intro h1 h2
  rcases Nat.eq_zero_or_pos k with hk | hk
  · subst hk
    have hmono : ¬ ((freshNode m).strict = true ∧
        packID t now (freshNode m).node 0 ≤ (freshNode m).lastID) := by
      simp only [freshNode]
      intro hcon
      have hle := hcon.2
      norm_num at hle
      have := @lem_pack_pos t now m 0 ht0 ht1 (by omega) (by omega) hm0 hm1
        (le_refl 0) (by omega) (by omega)
      omega
    have e := lem_genT_eval_new hTle (by norm_num [freshNode]; omega) hov hmono
    show (generateWithTimestamp t now (genATimes t now (freshNode m) 0)).1 = _
    rw [show genATimes t now (freshNode m) 0 = freshNode m from rfl, e]
    norm_num [freshNode]
  · have hst := ih (by omega) (by omega)
    have hcast : ((k : Int) - 1) + 1 = (k : Int) := by ring
    have hs1 : (((k : Int) - 1) + 1) % 1024 = (k : Int) := by
      rw [hcast]
      omega
    have hmono : ¬ ((⟨packID t now m ((k : Int) - 1), m, now, (k : Int) - 1, true⟩ :
          Node).strict = true ∧
        packID t now (⟨packID t now m ((k : Int) - 1), m, now, (k : Int) - 1, true⟩ :
          Node).node
          (((⟨packID t now m ((k : Int) - 1), m, now, (k : Int) - 1, true⟩ :
            Node).seq + 1) % 1024)
          ≤ (⟨packID t now m ((k : Int) - 1), m, now, (k : Int) - 1, true⟩ :
            Node).lastID) := by
      dsimp only
      intro hcon
      have hle := hcon.2
      rw [hs1] at hle
      have hgt := @lem_pack_succ_gt t now m ((k : Int) - 1) ht0 ht1 (by omega) hwM
        hm0 hm1 (by omega) (by omega)
      rw [hcast] at hgt
      omega
    have hnz : ¬ ((⟨packID t now m ((k : Int) - 1), m, now, (k : Int) - 1, true⟩ :
          Node).seq + 1) % 1024 = 0 := by
      dsimp only
      rw [hs1]
      omega
    have e := lem_genT_eval_same (n := ⟨packID t now m ((k : Int) - 1), m, now,
        (k : Int) - 1, true⟩) hTle rfl hnz hov hmono
    show (generateWithTimestamp t now (genATimes t now (freshNode m) k)).1 = _
    rw [hst, e]
    dsimp only
    rw [hs1]
    have hcast2 : ((k + 1 : Nat) : Int) - 1 = (k : Int) := by push_cast; ring
    rw [hcast2]

/-- C7: on a fresh generator with one fixed timestamp strictly after
the epoch, the first 1024 `GenerateWithTimestamp` calls succeed with
extracted sequences 0..1023 equal to the generation index, and the
1025th call fails with the sequence-exhausted error. -/
theorem C7_sequence_exhaustion (t now m : Int)
    (ht0 : 0 ≤ t) (ht1 : t ≤ 1023) (hm0 : 0 ≤ m) (hm1 : m ≤ 3)
    (hw0 : 0 < now) (hw1 : now ≤ TimestampMax) :
    (∀ k : Nat, k < 1024 → ∃ id,
      (generateWithTimestamp t now (genATimes t now (freshNode m) k)).2 = .ok id ∧
      idSeq id = (k : Int)) ∧
    (generateWithTimestamp t now (genATimes t now (freshNode m) 1024)).2
      = .error .sequenceExhausted := by
have hTle : ¬ TypeMax < t := by rw [typeMax_eq]; omega
have hov : ¬ TimestampMax < now := by omega
have hwM : now ≤ 2 ^ 41 - 1 := by rw [timestampMax_eq] at hw1; omega
constructor
· intro k hk
  rcases Nat.eq_zero_or_pos k with hk0 | hk0
  · subst hk0
    have hmono : ¬ ((freshNode m).strict = true ∧
        packID t now (freshNode m).node 0 ≤ (freshNode m).lastID) := by
      simp only [freshNode]
      intro hcon
      have hle := hcon.2
      norm_num at hle
      have := @lem_pack_pos t now m 0 ht0 ht1 (by omega) (by omega) hm0 hm1
        (le_refl 0) (by omega) (by omega)
      omega
    have e := lem_genT_eval_new hTle (by norm_num [freshNode]; omega) hov hmono
    refine ⟨packID t now m 0, ?_, ?_⟩
    · rw [show genATimes t now (freshNode m) 0 = freshNode m from rfl, e]
      norm_num [freshNode]
    · exact_mod_cast (lem_extract_packed t now m 0 ht0 (by rw [typeMax_eq]; omega)
        (by omega) (by omega) hm0 (by rw [nodeMax_eq]; omega)
        (le_refl 0) (by rw [seqMax_eq]; omega)).2.2.2
  · have hst := lem_genATimes_state t now m ht0 ht1 hm0 hm1 hw0 hw1 k
      (by omega) (by omega)
    have hcast : ((k : Int) - 1) + 1 = (k : Int) := by ring
    have hs1 : (((k : Int) - 1) + 1) % 1024 = (k : Int) := by
      rw [hcast]
      omega
    have hmono : ¬ ((⟨packID t now m ((k : Int) - 1), m, now, (k : Int) - 1, true⟩ :
          Node).strict = true ∧
        packID t now (⟨packID t now m ((k : Int) - 1), m, now, (k : Int) - 1, true⟩ :
          Node).node
          (((⟨packID t now m ((k : Int) - 1), m, now, (k : Int) - 1, true⟩ :
            Node).seq + 1) % 1024)
          ≤ (⟨packID t now m ((k : Int) - 1), m, now, (k : Int) - 1, true⟩ :
            Node).lastID) := by
      dsimp only
      intro hcon
      have hle := hcon.2
      rw [hs1] at hle
      have hgt := @lem_pack_succ_gt t now m ((k : Int) - 1) ht0 ht1 (by omega) hwM
        hm0 hm1 (by omega) (by omega)
      rw [hcast] at hgt
      omega
    have hnz : ¬ ((⟨packID t now m ((k : Int) - 1), m, now, (k : Int) - 1, true⟩ :
          Node).seq + 1) % 1024 = 0 := by
      dsimp only
      rw [hs1]
      omega
    have e := lem_genT_eval_same (n := ⟨packID t now m ((k : Int) - 1), m, now,
        (k : Int) - 1, true⟩) hTle rfl hnz hov hmono
    refine ⟨packID t now m (k : Int), ?_, ?_⟩
    · rw [hst, e]
      dsimp only
      rw [hs1]
    · exact (lem_extract_packed t now m (k : Int) ht0 (by rw [typeMax_eq]; omega)
        (by omega) (by omega) hm0 (by rw [nodeMax_eq]; omega)
        (by omega) (by rw [seqMax_eq]; omega)).2.2.2
· have hst := lem_genATimes_state t now m ht0 ht1 hm0 hm1 hw0 hw1 1024
    (by omega) (by omega)
  have hst2 : genATimes t now (freshNode m) 1024
      = ⟨packID t now m 1023, m, now, 1023, true⟩ := by
    rw [hst]
    norm_num
  have hz : ((⟨packID t now m 1023, m, now, 1023, true⟩ : Node).seq + 1) % 1024 = 0 := by
    dsimp only
    norm_num
  have e := lem_genT_eval_exhaust (n := ⟨packID t now m 1023, m, now, 1023, true⟩)
    hTle (show now = (⟨packID t now m 1023, m, now, 1023, true⟩ : Node).time from rfl) hz
  rw [hst2, e]

theorem C7_sequence_exhaustion_witness :
    ((0 : Int) ≤ 1 ∧ (0 : Int) < 9) ∧
    ((∀ k : Nat, k < 1024 → ∃ id,
      (generateWithTimestamp 1 9 (genATimes 1 9 (freshNode 0) k)).2 = .ok id ∧
      idSeq id = (k : Int)) ∧
    (generateWithTimestamp 1 9 (genATimes 1 9 (freshNode 0) 1024)).2
      = .error .sequenceExhausted) :=
⟨⟨by decide, by decide⟩,
  C7_sequence_exhaustion 1 9 0 (by decide) (by decide) (by decide) (by decide)
    (by decide) (by decide)⟩

/-! ## Digit machinery lemmas for the codec claims -/

lemma lem_horner_append (b : Nat) (xs : List Nat) (d : Nat) :
    ∀ val, hornerFold b val (xs ++ [d]) = hornerFold b val xs * b + d := by
induction xs with
| nil => intro val; rfl
| cons x xs ih =>
  intro val
  simp only [List.cons_append, hornerFold]
  exact ih (val * b + x)

lemma lem_horner_le (b : Nat) (hb : 1 ≤ b) (ds : List Nat) :
    ∀ val, val ≤ hornerFold b val ds := by
induction ds with
| nil => intro val; exact le_refl val
| cons d ds ih =>
  intro val
  have h1 : val ≤ val * b := Nat.le_mul_of_pos_right val hb
  have h2 := ih (val * b + d)
  simp only [hornerFold]
  omega

lemma lem_revDigits_lt (b : Nat) (hb : 0 < b) :
    ∀ fuel n d, d ∈ revDigitsAux b fuel n → d < b := by
intro fuel
induction fuel with
| zero =>
  intro n d hd
  simp [revDigitsAux] at hd
| succ k ih =>
  intro n d hd
  unfold revDigitsAux at hd
  split_ifs at hd with hn
  · simp at hd
  · rcases List.mem_cons.mp hd with h | h
    · rw [h]
      exact Nat.mod_lt _ hb
    · exact ih (n / b) d h

lemma lem_revDigits_horner (b : Nat) (hb : 2 ≤ b) :
    ∀ fuel n, n ≤ fuel → hornerFold b 0 ((revDigitsAux b fuel n).reverse) = n := by
intro fuel
induction fuel with
| zero =>
  intro n h
  have : n = 0 := by omega
  subst this
  rfl
| succ k ih =>
  intro n h
  by_cases hn : n = 0
  · subst hn
    rfl
  · unfold revDigitsAux
    rw [if_neg hn, List.reverse_cons, lem_horner_append]
    have hdiv : n / b < n := Nat.div_lt_self (Nat.pos_of_ne_zero hn) (by omega)
    rw [ih (n / b) (by omega)]
    have hdm := Nat.div_add_mod' n b
    omega

lemma lem_revDigits_len (b : Nat) (hb : 2 ≤ b) :
    ∀ fuel n k, n ≤ fuel → n < b ^ k → (revDigitsAux b fuel n).length ≤ k := by
intro fuel
induction fuel with
| zero =>
  intro n k h hk
  have : n = 0 := by omega
  subst this
  simp [revDigitsAux]
| succ fuel ih =>
  intro n k h hk
  by_cases hn : n = 0
  · subst hn
    simp [revDigitsAux]
  · unfold revDigitsAux
    rw [if_neg hn]
    cases k with
    | zero =>
      simp at hk
      omega
    | succ k =>
      have hdiv : n / b < n := Nat.div_lt_self (Nat.pos_of_ne_zero hn) (by omega)
      have hdk : n / b < b ^ k := by
        rw [Nat.div_lt_iff_lt_mul (by omega)]
        rw [pow_succ] at hk
        exact hk
      have := ih (n / b) k (by omega) hdk
      simp only [List.length_cons]
      omega

lemma lem_digitsMSB_horner (b n : Nat) (hb : 2 ≤ b) :
    hornerFold b 0 (digitsMSB b n) = n :=
lem_revDigits_horner b hb n n (le_refl n)

lemma lem_digitsMSB_lt (b n : Nat) (hb : 0 < b) :
    ∀ d ∈ digitsMSB b n, d < b := by
intro d hd
exact lem_revDigits_lt b hb n n d (List.mem_reverse.mp hd)

lemma lem_digitsMSB_len (b n k : Nat) (hb : 2 ≤ b) (hk : n < b ^ k) :
    (digitsMSB b n).length ≤ k := by
unfold digitsMSB
rw [List.length_reverse]
exact lem_revDigits_len b hb n n k (le_refl n) hk

lemma lem_digitsMSB_ne_nil (b n : Nat) (hn : n ≠ 0) : digitsMSB b n ≠ [] := by
unfold digitsMSB
cases n with
| zero => exact absurd rfl hn
| succ m =>
  simp only [revDigitsAux]
  rw [if_neg hn]
  simp

lemma lem_digitsFixed_len (b : Nat) : ∀ k m, (digitsFixed b k m).length = k := by
intro k
induction k with
| zero => intro m; rfl
| succ k ih =>
  intro m
  simp only [digitsFixed, List.length_cons, ih]

lemma lem_digitsFixed_lt (b : Nat) (hb : 0 < b) :
    ∀ k m, m < b ^ (k : Nat) → ∀ d ∈ digitsFixed b k m, d < b := by
intro k
induction k with
| zero =>
  intro m hm d hd
  simp [digitsFixed] at hd
| succ k ih =>
  intro m hm d hd
  simp only [digitsFixed, List.mem_cons] at hd
  rcases hd with h | h
  · rw [h]
    rw [Nat.div_lt_iff_lt_mul (Nat.pos_pow_of_pos k hb)]
    rw [pow_succ] at hm
    calc m < b ^ k * b := hm
    _ = b * b ^ k := by ring
  · exact ih (m % b ^ k) (Nat.mod_lt _ (Nat.pos_pow_of_pos k hb)) d h

lemma lem_digitsFixed_horner (b : Nat) (hb : 0 < b) :
    ∀ k acc m, m < b ^ k →
      hornerFold b acc (digitsFixed b k m) = acc * b ^ k + m := by
intro k
induction k with
| zero =>
  intro acc m hm
  rw [pow_zero] at hm
  simp only [digitsFixed, hornerFold, pow_zero]
  omega
| succ k ih =>
  intro acc m hm
  simp only [digitsFixed, hornerFold]
  rw [ih (acc * b + m / b ^ k) (m % b ^ k) (Nat.mod_lt _ (Nat.pos_pow_of_pos k hb))]
  have h2 : (m / b ^ k) * b ^ k + m % b ^ k = m := by
    rw [Nat.mul_comm]
    exact Nat.div_add_mod m (b ^ k)
  have h3 : (acc * b + m / b ^ k) * b ^ k + m % b ^ k
      = acc * (b ^ k * b) + ((m / b ^ k) * b ^ k + m % b ^ k) := by ring
  rw [h3, h2, pow_succ]

lemma lem_toUInt64_nonneg {v : Int} (h0 : 0 ≤ v) (h1 : v < 2 ^ 64) :
    toUInt64 v = v.toNat := by
rw [← Int.toNat_of_nonneg h0] at h1 ⊢
exact toUInt64_natCast v.toNat (by exact_mod_cast h1)

/-! ## Alphabet facts (finite checks) -/

lemma lem_b32_dec_enc : ∀ d : Nat, d < 32 →
    decodeBase32Map (encodeBase32Map.getD d 'y') = some d := by decide

lemma lem_b58_dec_enc : ∀ d : Nat, d < 58 →
    decodeBase58Map (encodeBase58Map.getD d '1') = some d := by decide

lemma lem_b64_dec_enc : ∀ d : Nat, d < 64 →
    decodeBase64Map (encodeBase64Map.getD d 'A') = some d := by decide

lemma lem_dec_digit_facts : ∀ d : Nat, d < 10 →
    goDigitVal (decDigitChar d) = some d ∧ decDigitChar d ≠ '-' ∧ decDigitChar d ≠ '+' := by
decide

/-! ## Parse-loop lemmas (base32/base58 shape) -/

/-- Soundness: the loop over an encoded digit string accumulates the
Horner value, never tripping the overflow guard while the final value
fits in `uint64`. -/
lemma lem_loop_enc (b : Nat) (hb : 1 ≤ b) (dec : Char → Option Nat) (enc : Nat → Char) :
    ∀ (ds : List Nat) (val : Nat), (∀ d ∈ ds, dec (enc d) = some d) →
      hornerFold b val ds ≤ 2 ^ 64 - 1 →
      parseBaseLoop b dec val (ds.map enc) = .ok (hornerFold b val ds) := by
intro ds
induction ds with
| nil => intro val _ _; rfl
| cons d ds ih =>
  intro val hdec h
  simp only [List.map_cons, parseBaseLoop]
  rw [hdec d (List.mem_cons_self d ds)]
  dsimp only
  have hmono := lem_horner_le b hb ds (val * b + d)
  have hle : val * b + d ≤ 2 ^ 64 - 1 := le_trans hmono h
  have hguard : val ≤ (2 ^ 64 - 1 - d) / b := by
    rw [Nat.le_div_iff_mul_le (by omega)]
    omega
  rw [if_neg (by omega)]
  exact ih (val * b + d) (fun x hx => hdec x (List.mem_cons_of_mem d hx)) h

/-- Completeness: a successful loop means every character decoded and
the result is the Horner value of the decoded digits. -/
lemma lem_loop_ok (b : Nat) (dec : Char → Option Nat) :
    ∀ (s : List Char) (val w : Nat), parseBaseLoop b dec val s = .ok w →
      ∃ ds, decodeAll dec s = some ds ∧ w = hornerFold b val ds := by
intro s
induction s with
| nil =>
  intro val w h
  simp only [parseBaseLoop, Except.ok.injEq] at h
  exact ⟨[], rfl, h.symm⟩
| cons c cs ih =>
  intro val w h
  simp only [parseBaseLoop] at h
  rcases hdc : dec c with _ | d
  · rw [hdc] at h
    simp at h
  · rw [hdc] at h
    dsimp only at h
    split_ifs at h with hg
    obtain ⟨ds, hds, hw⟩ := ih (val * b + d) w h
    refine ⟨d :: ds, ?_, hw⟩
    simp only [decodeAll, hdc, hds]

/-- Leading zero-valued characters do not change the loop value 0. -/
lemma lem_loop_zeros (b : Nat) (_hb : 0 < b) (dec : Char → Option Nat) (z : Char)
    (hz : dec z = some 0) :
    ∀ (k : Nat) (t : List Char),
      parseBaseLoop b dec 0 (List.replicate k z ++ t) = parseBaseLoop b dec 0 t := by
intro k
induction k with
| zero => intro t; rfl
| succ k ih =>
  intro t
  simp only [List.replicate_succ, List.cons_append, parseBaseLoop]
  rw [hz]
  dsimp only
  rw [if_neg (Nat.not_lt_zero _)]
  simpa using ih t

/-- `decodeAll` over an encoded digit string. -/
lemma lem_decodeAll_map (dec : Char → Option Nat) (enc : Nat → Char) :
    ∀ (ds : List Nat), (∀ d ∈ ds, dec (enc d) = some d) →
      decodeAll dec (ds.map enc) = some ds := by
intro ds
induction ds with
| nil => intro _; rfl
| cons d ds ih =>
  intro hdec
  simp only [List.map_cons, decodeAll, hdec d (List.mem_cons_self d ds),
    ih (fun x hx => hdec x (List.mem_cons_of_mem d hx))]

/-! ## Decimal/binary digit-loop lemmas -/

/-- Soundness of the `ParseUint` digit loop over formatted digits. -/
lemma lem_pd_enc (base : Nat) :
    ∀ (ds : List Nat) (acc : Nat), (∀ d ∈ ds, d < base) →
      (∀ d ∈ ds, goDigitVal (decDigitChar d) = some d) →
      parseDigitsAux base acc (ds.map decDigitChar) = some (hornerFold base acc ds) := by
intro ds
induction ds with
| nil => intro acc _ _; rfl
| cons d ds ih =>
  intro acc hlt hchar
  simp only [List.map_cons, parseDigitsAux]
  rw [hchar d (List.mem_cons_self d ds)]
  dsimp only
  rw [if_neg (by have := hlt d (List.mem_cons_self d ds); omega)]
  exact ih (acc * base + d) (fun x hx => hlt x (List.mem_cons_of_mem d hx))
    (fun x hx => hchar x (List.mem_cons_of_mem d hx))

/-- Completeness: a successful digit loop means every character is a
valid digit for the base. -/
lemma lem_pd_ok (base : Nat) :
    ∀ (s : List Char) (acc m : Nat), parseDigitsAux base acc s = some m →
      ∀ c ∈ s, isGoDigit base c = true := by
intro s
induction s with
| nil => intro acc m _ c hc; simp at hc
| cons c0 cs ih =>
  intro acc m h c hc
  simp only [parseDigitsAux] at h
  rcases hdc : goDigitVal c0 with _ | d
  · rw [hdc] at h
    simp at h
  · rw [hdc] at h
    dsimp only at h
    split_ifs at h with hg
    rcases List.mem_cons.mp hc with hce | hce
    · subst hce
      simp [isGoDigit, hdc]
      omega
    · exact ih (acc * base + d) m h c hce

/-- Skipping leading `'0'` characters does not change the digit loop
value 0. -/
lemma lem_pd_zeros (base : Nat) (hb : 0 < base) :
    ∀ (k : Nat) (t : List Char),
      parseDigitsAux base 0 (List.replicate k '0' ++ t) = parseDigitsAux base 0 t := by
intro k
induction k with
| zero => intro t; rfl
| succ k ih =>
  intro t
  simp only [List.replicate_succ, List.cons_append, parseDigitsAux]
  rw [show goDigitVal '0' = some 0 from by decide]
  dsimp only
  rw [if_neg (by omega)]
  simpa using ih t

/-! ## Round-trip lemmas per codec -/

lemma lem_roundtrip_dec (v : Int) (h0 : 0 ≤ v) (h1 : v < 2 ^ 63) :
    parseString (idString v) = .ok v := by
by_cases hv : v = 0
· subst hv
  rfl
· have hna : v.natAbs ≠ 0 := Int.natAbs_ne_zero.mpr hv
  have hu : (v.natAbs : Int) = v := Int.natAbs_of_nonneg h0
  have huv : v.natAbs < 2 ^ 63 := by omega
  have hne := lem_digitsMSB_ne_nil 10 v.natAbs hna
  obtain ⟨d0, ds', hcons⟩ := List.exists_cons_of_ne_nil hne
  have hform : idString v = (digitsMSB 10 v.natAbs).map decDigitChar := by
    unfold idString formatIntGo
    rw [if_neg (by omega), if_neg hna]
  have hlt : ∀ d ∈ digitsMSB 10 v.natAbs, d < 10 :=
    lem_digitsMSB_lt 10 v.natAbs (by omega)
  have hchars : ∀ d ∈ digitsMSB 10 v.natAbs, goDigitVal (decDigitChar d) = some d :=
    fun d hd => (lem_dec_digit_facts d (hlt d hd)).1
  have hpd := lem_pd_enc 10 (digitsMSB 10 v.natAbs) 0 hlt hchars
  have hhorn := lem_digitsMSB_horner 10 v.natAbs (by omega)
  have hd0 : d0 < 10 := hlt d0 (by rw [hcons]; exact List.mem_cons_self d0 ds')
  obtain ⟨-, hne1, hne2⟩ := lem_dec_digit_facts d0 hd0
  rw [hform, hcons, List.map_cons]
  simp only [parseString, parseIntGo]
  rw [if_neg (not_or.mpr ⟨hne1, hne2⟩)]
  dsimp only
  rw [← List.map_cons, ← hcons, hpd]
  dsimp only
  rw [show (decDigitChar d0 == '-') = false from beq_eq_false_iff_ne.mpr hne1]
  rw [if_neg (by rw [hhorn]; omega)]
  rw [if_neg (by simp)]
  simp only [Bool.false_eq_true, if_false, hhorn, Except.ok.injEq]
  exact hu

lemma lem_binDigit_chars : ∀ d : Nat, d < 2 → decDigitChar d = '0' ∨ decDigitChar d = '1' := by
decide

lemma lem_roundtrip_b2 (v : Int) (h0 : 0 ≤ v) (h1 : v < 2 ^ 63) :
    parseBase2 (idBase2 v) = .ok v := by
by_cases hv : v = 0
· subst hv
  rfl
· have hna : v.natAbs ≠ 0 := Int.natAbs_ne_zero.mpr hv
  have hu : (v.natAbs : Int) = v := Int.natAbs_of_nonneg h0
  have huv : v.natAbs < 2 ^ 63 := by omega
  have hne := lem_digitsMSB_ne_nil 2 v.natAbs hna
  have hform : idBase2 v = List.replicate (63 - (digitsMSB 2 v.natAbs).length) '0'
      ++ (digitsMSB 2 v.natAbs).map decDigitChar := by
    unfold idBase2
    rw [if_neg (by omega), if_neg hna]
    simp [List.length_map]
  have hlt : ∀ d ∈ digitsMSB 2 v.natAbs, d < 2 :=
    lem_digitsMSB_lt 2 v.natAbs (by omega)
  have hchars : ∀ d ∈ digitsMSB 2 v.natAbs, goDigitVal (decDigitChar d) = some d :=
    fun d hd => (lem_dec_digit_facts d (by have := hlt d hd; omega)).1
  have hall : ∀ c ∈ idBase2 v, c = '0' ∨ c = '1' := by
    intro c hc
    rw [hform] at hc
    rcases List.mem_append.mp hc with h | h
    · exact Or.inl (List.eq_of_mem_replicate h)
    · obtain ⟨d, hd, hcd⟩ := List.mem_map.mp h
      rw [← hcd]
      exact lem_binDigit_chars d (hlt d hd)
  have hsne : idBase2 v ≠ [] := by
    rw [hform]
    intro hemp
    rcases List.append_eq_nil.mp hemp with ⟨-, h2⟩
    exact hne (List.map_eq_nil_iff.mp h2)
  obtain ⟨c0, rest, hcr⟩ := List.exists_cons_of_ne_nil hsne
  have hc0 : c0 = '0' ∨ c0 = '1' := hall c0 (by rw [hcr]; exact List.mem_cons_self c0 rest)
  have hc0m : c0 ≠ '-' ∧ c0 ≠ '+' := by
    rcases hc0 with h | h <;> rw [h] <;> exact ⟨by decide, by decide⟩
  have hpd : parseDigitsAux 2 0 (idBase2 v) = some v.natAbs := by
    rw [hform, lem_pd_zeros 2 (by omega)]
    rw [lem_pd_enc 2 (digitsMSB 2 v.natAbs) 0 hlt hchars]
    rw [lem_digitsMSB_horner 2 v.natAbs (by omega)]
  unfold parseBase2
  rw [hcr]
  simp only [parseIntGo]
  rw [if_neg (not_or.mpr hc0m)]
  dsimp only
  rw [← hcr, hpd]
  dsimp only
  rw [show (c0 == '-') = false from beq_eq_false_iff_ne.mpr hc0m.1]
  rw [if_neg (by omega)]
  rw [if_neg (by simp)]
  simp only [Bool.false_eq_true, if_false, Except.ok.injEq]
  exact hu

lemma lem_roundtrip_b32 (v : Int) (h0 : 0 ≤ v) (h1 : v < 2 ^ 63) :
    parseBase32 (idBase32 v) = .ok v := by
by_cases hv : v = 0
· subst hv
  rfl
· have hu64 : toUInt64 v = v.toNat := lem_toUInt64_nonneg h0 (by omega)
  have hna : v.toNat ≠ 0 := by omega
  have huv : v.toNat < 2 ^ 63 := by omega
  have hu : (v.toNat : Int) = v := Int.toNat_of_nonneg h0
  have hform : idBase32 v
      = (digitsMSB 32 v.toNat).map (fun d => encodeBase32Map.getD d 'y') := by
    unfold idBase32
    rw [if_neg hv, hu64]
  have hlt := lem_digitsMSB_lt 32 v.toNat (by omega)
  have hdec : ∀ d ∈ digitsMSB 32 v.toNat,
      decodeBase32Map (encodeBase32Map.getD d 'y') = some d :=
    fun d hd => lem_b32_dec_enc d (hlt d hd)
  have hhorn := lem_digitsMSB_horner 32 v.toNat (by omega)
  have hpow : (2 : Nat) ^ 63 < 32 ^ 13 := by norm_num
  have hlen : (digitsMSB 32 v.toNat).length ≤ 13 :=
    lem_digitsMSB_len 32 v.toNat 13 (by omega) (by omega)
  have hne := lem_digitsMSB_ne_nil 32 v.toNat hna
  have hloop := lem_loop_enc 32 (by omega) decodeBase32Map
    (fun d => encodeBase32Map.getD d 'y') (digitsMSB 32 v.toNat) 0 hdec
    (by rw [hhorn]; omega)
  unfold parseBase32
  rw [hform]
  rw [if_neg (by simp [List.length_map]; exact hne)]
  rw [if_neg (by simp [List.length_map]; omega)]
  rw [hloop]
  dsimp only
  rw [if_neg (by rw [hhorn]; omega), hhorn, hu]

lemma lem_roundtrip_b58 (v : Int) (h0 : 0 ≤ v) (h1 : v < 2 ^ 63) :
    parseBase58 (idBase58 v) = .ok v := by
by_cases hv : v = 0
· subst hv
  rfl
· have hu64 : toUInt64 v = v.toNat := lem_toUInt64_nonneg h0 (by omega)
  have hna : v.toNat ≠ 0 := by omega
  have huv : v.toNat < 2 ^ 63 := by omega
  have hu : (v.toNat : Int) = v := Int.toNat_of_nonneg h0
  have hform : idBase58 v
      = (digitsMSB 58 v.toNat).map (fun d => encodeBase58Map.getD d '1') := by
    unfold idBase58
    rw [if_neg hv, hu64]
  have hlt := lem_digitsMSB_lt 58 v.toNat (by omega)
  have hdec : ∀ d ∈ digitsMSB 58 v.toNat,
      decodeBase58Map (encodeBase58Map.getD d '1') = some d :=
    fun d hd => lem_b58_dec_enc d (hlt d hd)
  have hhorn := lem_digitsMSB_horner 58 v.toNat (by omega)
  have hpow : (2 : Nat) ^ 63 < 58 ^ 11 := by norm_num
  have hlen : (digitsMSB 58 v.toNat).length ≤ 11 :=
    lem_digitsMSB_len 58 v.toNat 11 (by omega) (by omega)
  have hne := lem_digitsMSB_ne_nil 58 v.toNat hna
  have hloop := lem_loop_enc 58 (by omega) decodeBase58Map
    (fun d => encodeBase58Map.getD d '1') (digitsMSB 58 v.toNat) 0 hdec
    (by rw [hhorn]; omega)
  unfold parseBase58
  rw [hform]
  rw [if_neg (by simp [List.length_map]; exact hne)]
  rw [if_neg (by simp [List.length_map]; omega)]
  rw [hloop]
  dsimp only
  rw [if_neg (by rw [hhorn]; omega), hhorn, hu]

/-- Encoded base64 output contains no CR/LF, so stripping is the
identity on it. -/
lemma lem_strip_b64_enc (ds : List Nat) (h : ∀ d ∈ ds, d < 64) :
    stripNewlines (ds.map (fun d => encodeBase64Map.getD d 'A'))
      = ds.map (fun d => encodeBase64Map.getD d 'A') := by
unfold stripNewlines
rw [List.filter_eq_self]
intro c hc
rw [List.mem_map] at hc
obtain ⟨d, hd, rfl⟩ := hc
have hall : ∀ d < 64,
    (!(encodeBase64Map.getD d 'A' == '\r' || encodeBase64Map.getD d 'A' == '\n'))
      = true := by decide
exact hall d (h d hd)

lemma lem_roundtrip_b64 (v : Int) (h0 : 0 ≤ v) (h1 : v < 2 ^ 63) :
    parseBase64 (idBase64 v) = .ok v := by
have hu64 : toUInt64 v = v.toNat := lem_toUInt64_nonneg h0 (by omega)
have hu : (v.toNat : Int) = v := Int.toNat_of_nonneg h0
have hw : v.toNat * 4 < 64 ^ 11 := by
  have : (64 : Nat) ^ 11 = 2 ^ 66 := by norm_num
  omega
have hlt := lem_digitsFixed_lt 64 (by omega) 11 (v.toNat * 4) hw
have hdec : ∀ d ∈ digitsFixed 64 11 (v.toNat * 4),
    decodeBase64Map (encodeBase64Map.getD d 'A') = some d :=
  fun d hd => lem_b64_dec_enc d (hlt d hd)
have hall := lem_decodeAll_map decodeBase64Map (fun d => encodeBase64Map.getD d 'A')
  (digitsFixed 64 11 (v.toNat * 4)) hdec
have hhorn := lem_digitsFixed_horner 64 (by omega) 11 0 (v.toNat * 4) hw
have hslen : ((digitsFixed 64 11 (v.toNat * 4)).map
    (fun d => encodeBase64Map.getD d 'A')).length = 11 := by
  rw [List.length_map, lem_digitsFixed_len]
unfold parseBase64 idBase64
rw [hu64, lem_strip_b64_enc _ hlt]
dsimp only
rw [hslen]
rw [if_neg (by decide)]
rw [hall]
dsimp only
rw [if_neg (by decide)]
rw [hhorn]
have hval : (0 * 64 ^ 11 + v.toNat * 4) / 2 ^ (11 * 6 - 64) = v.toNat := by omega
rw [hval]
rw [if_neg (by omega), hu]

/-! ## Claims C2 and C10 -/

/-- C2: for every value in `[0, 2^63 - 1)`, decoding the encoding
returns the value for all five codecs. -/
theorem C2_codec_round_trips (v : Int) (h0 : 0 ≤ v) (h1 : v < 2 ^ 63 - 1) :
    parseString (idString v) = .ok v ∧ parseBase2 (idBase2 v) = .ok v ∧
    parseBase32 (idBase32 v) = .ok v ∧ parseBase58 (idBase58 v) = .ok v ∧
    parseBase64 (idBase64 v) = .ok v :=
⟨lem_roundtrip_dec v h0 (by omega), lem_roundtrip_b2 v h0 (by omega),
  lem_roundtrip_b32 v h0 (by omega), lem_roundtrip_b58 v h0 (by omega),
  lem_roundtrip_b64 v h0 (by omega)⟩

theorem C2_codec_round_trips_witness :
    ((0 : Int) ≤ 123456789 ∧ (123456789 : Int) < 2 ^ 63 - 1) ∧
    (parseString (idString 123456789) = .ok 123456789 ∧
      parseBase2 (idBase2 123456789) = .ok 123456789 ∧
      parseBase32 (idBase32 123456789) = .ok 123456789 ∧
      parseBase58 (idBase58 123456789) = .ok 123456789 ∧
      parseBase64 (idBase64 123456789) = .ok 123456789) :=
⟨⟨by decide, by decide⟩, C2_codec_round_trips 123456789 (by decide) (by decide)⟩

/-- The base32 parse loop evaluated on an encoded value. -/
lemma lem_loop_b32_enc (v : Int) (h0 : 0 ≤ v) (h1 : v < 2 ^ 63) :
    parseBaseLoop 32 decodeBase32Map 0 (idBase32 v) = .ok v.toNat := by
by_cases hv : v = 0
· subst hv
  rfl
· have hu64 : toUInt64 v = v.toNat := lem_toUInt64_nonneg h0 (by omega)
  have hform : idBase32 v
      = (digitsMSB 32 v.toNat).map (fun d => encodeBase32Map.getD d 'y') := by
    unfold idBase32
    rw [if_neg hv, hu64]
  have hlt := lem_digitsMSB_lt 32 v.toNat (by omega)
  have hhorn := lem_digitsMSB_horner 32 v.toNat (by omega)
  rw [hform, lem_loop_enc 32 (by omega) decodeBase32Map
    (fun d => encodeBase32Map.getD d 'y') (digitsMSB 32 v.toNat) 0
    (fun d hd => lem_b32_dec_enc d (hlt d hd)) (by rw [hhorn]; omega), hhorn]

/-- The base58 parse loop evaluated on an encoded value. -/
lemma lem_loop_b58_enc (v : Int) (h0 : 0 ≤ v) (h1 : v < 2 ^ 63) :
    parseBaseLoop 58 decodeBase58Map 0 (idBase58 v) = .ok v.toNat := by
by_cases hv : v = 0
· subst hv
  rfl
· have hu64 : toUInt64 v = v.toNat := lem_toUInt64_nonneg h0 (by omega)
  have hform : idBase58 v
      = (digitsMSB 58 v.toNat).map (fun d => encodeBase58Map.getD d '1') := by
    unfold idBase58
    rw [if_neg hv, hu64]
  have hlt := lem_digitsMSB_lt 58 v.toNat (by omega)
  have hhorn := lem_digitsMSB_horner 58 v.toNat (by omega)
  rw [hform, lem_loop_enc 58 (by omega) decodeBase58Map
    (fun d => encodeBase58Map.getD d '1') (digitsMSB 58 v.toNat) 0
    (fun d hd => lem_b58_dec_enc d (hlt d hd)) (by rw [hhorn]; omega), hhorn]

/-- C10: the base32 and base58 decoders accept non-canonical encodings
padded with the zero-valued alphabet character (subject only to the
length caps), so decoding is not injective and encode-after-decode is
not the identity on accepted strings. -/
theorem C10_noncanonical_encodings_accepted (v : Int) (k : Nat)
    (h0 : 0 ≤ v) (h1 : v < 2 ^ 63) (hk : 1 ≤ k) :
    (k + (idBase32 v).length ≤ 13 →
      parseBase32 (List.replicate k 'y' ++ idBase32 v) = .ok v) ∧
    (k + (idBase58 v).length ≤ 11 →
      parseBase58 (List.replicate k '1' ++ idBase58 v) = .ok v) ∧
    (parseBase32 ['y', 'y'] = .ok 0 ∧ idBase32 0 ≠ ['y', 'y']) ∧
    (parseBase58 ['1', '1'] = .ok 0 ∧ idBase58 0 ≠ ['1', '1']) := by
refine ⟨?_, ?_, ⟨rfl, by decide⟩, ⟨rfl, by decide⟩⟩
· intro hlen
  have hlz := lem_loop_zeros 32 (by omega) decodeBase32Map 'y' (by decide) k (idBase32 v)
  unfold parseBase32
  rw [List.length_append, List.length_replicate]
  rw [if_neg (by omega), if_neg (by omega)]
  rw [hlz, lem_loop_b32_enc v h0 h1]
  dsimp only
  rw [if_neg (by omega), Int.toNat_of_nonneg h0]
· intro hlen
  have hlz := lem_loop_zeros 58 (by omega) decodeBase58Map '1' (by decide) k (idBase58 v)
  unfold parseBase58
  rw [List.length_append, List.length_replicate]
  rw [if_neg (by omega), if_neg (by omega)]
  rw [hlz, lem_loop_b58_enc v h0 h1]
  dsimp only
  rw [if_neg (by omega), Int.toNat_of_nonneg h0]

theorem C10_noncanonical_encodings_accepted_witness :
    ((0 : Int) ≤ 5 ∧ (5 : Int) < 2 ^ 63 ∧ 1 ≤ 2 ∧
      2 + (idBase32 5).length ≤ 13 ∧ 2 + (idBase58 5).length ≤ 11) ∧
    (parseBase32 (List.replicate 2 'y' ++ idBase32 5) = .ok 5 ∧
      parseBase58 (List.replicate 2 '1' ++ idBase58 5) = .ok 5) :=
⟨⟨by decide, by decide, by decide, by decide, by decide⟩,
  ⟨(C10_noncanonical_encodings_accepted 5 2 (by decide) (by decide) (by decide)).1
      (by decide),
    (C10_noncanonical_encodings_accepted 5 2 (by decide) (by decide) (by decide)).2.1
      (by decide)⟩⟩

/-! ## Claim C8: decoder rejection characterisations -/

lemma lem_parse32_ok {s : List Char} {v : Int} (h : parseBase32 s = .ok v) :
    s ≠ [] ∧ s.length ≤ 13 ∧ ∃ ds, decodeAll decodeBase32Map s = some ds ∧
      v = (hornerFold 32 0 ds : Int) ∧ hornerFold 32 0 ds ≤ 2 ^ 63 - 1 := by
unfold parseBase32 at h
split_ifs at h with h1 h2
rcases hw : parseBaseLoop 32 decodeBase32Map 0 s with e | w
· rw [hw] at h
  simp at h
· rw [hw] at h
  dsimp only at h
  split_ifs at h with h3
  simp only [Except.ok.injEq] at h
  obtain ⟨ds, hds, hwv⟩ := lem_loop_ok 32 decodeBase32Map s 0 w hw
  refine ⟨fun hnil => h1 (by rw [hnil]; rfl), by omega, ds, hds, ?_, by omega⟩
  rw [← h, hwv]

lemma lem_parse58_ok {s : List Char} {v : Int} (h : parseBase58 s = .ok v) :
    s ≠ [] ∧ s.length ≤ 11 ∧ ∃ ds, decodeAll decodeBase58Map s = some ds ∧
      v = (hornerFold 58 0 ds : Int) ∧ hornerFold 58 0 ds ≤ 2 ^ 63 - 1 := by
unfold parseBase58 at h
split_ifs at h with h1 h2
rcases hw : parseBaseLoop 58 decodeBase58Map 0 s with e | w
· rw [hw] at h
  simp at h
· rw [hw] at h
  dsimp only at h
  split_ifs at h with h3
  simp only [Except.ok.injEq] at h
  obtain ⟨ds, hds, hwv⟩ := lem_loop_ok 58 decodeBase58Map s 0 w hw
  refine ⟨fun hnil => h1 (by rw [hnil]; rfl), by omega, ds, hds, ?_, by omega⟩
  rw [← h, hwv]

lemma lem_parse64_ok {s : List Char} {v : Int} (h : parseBase64 s = .ok v) :
    (stripNewlines s).length = 11 ∧
      ∃ ds, decodeAll decodeBase64Map (stripNewlines s) = some ds ∧
      hornerFold 64 0 ds / 2 ^ ((stripNewlines s).length * 6 - 64) ≤ 2 ^ 63 - 1 ∧
      v = ((hornerFold 64 0 ds / 2 ^ ((stripNewlines s).length * 6 - 64) : Nat) : Int) := by
simp only [parseBase64] at h
by_cases h1 : (stripNewlines s).length % 4 = 1
· rw [if_pos h1] at h
  simp at h
· rw [if_neg h1] at h
  rcases hds : decodeAll decodeBase64Map (stripNewlines s) with _ | ds
  · rw [hds] at h
    simp at h
  · rw [hds] at h
    dsimp only at h
    by_cases h2 : (stripNewlines s).length * 6 / 8 ≠ 8
    · rw [if_pos h2] at h
      simp at h
    · rw [if_neg h2] at h
      by_cases h3 : 2 ^ 63 - 1
          < hornerFold 64 0 ds / 2 ^ ((stripNewlines s).length * 6 - 64)
      · rw [if_pos h3] at h
        simp at h
      · rw [if_neg h3] at h
        simp only [Except.ok.injEq] at h
        have hlen : (stripNewlines s).length = 11 := by omega
        exact ⟨hlen, ds, rfl, by omega, h.symm⟩

/-- The sign characters are not digits for any base. -/
lemma lem_minus_not_digit (base : Nat) : isGoDigit base '-' = false := by
unfold isGoDigit
rw [show goDigitVal '-' = none from by decide]

lemma lem_plus_not_digit (base : Nat) : isGoDigit base '+' = false := by
unfold isGoDigit
rw [show goDigitVal '+' = none from by decide]

/-- What a successful `parseIntGo` implies about its input. -/
lemma lem_parseInt_ok {base : Nat} {s : List Char} {v : Int}
    (h : parseIntGo base s = .ok v) :
    ∃ c0 rest m, s = c0 :: rest ∧
      parseDigitsAux base 0 (if c0 = '-' ∨ c0 = '+' then rest else s) = some m ∧
      m ≤ 2 ^ 63 ∧ (c0 = '-' → v = -(m : Int)) ∧
      (c0 ≠ '-' → v = (m : Int) ∧ m < 2 ^ 63) := by
cases s with
| nil => simp [parseIntGo] at h
| cons c0 rest =>
  refine ⟨c0, rest, ?_⟩
  simp only [parseIntGo] at h
  rcases hdg : (if c0 = '-' ∨ c0 = '+' then rest else c0 :: rest) with _ | ⟨d1, dr⟩
  · rw [hdg] at h
    simp at h
  · rw [hdg] at h
    dsimp only at h
    rcases hm : parseDigitsAux base 0 (d1 :: dr) with _ | m
    · rw [hm] at h
      simp at h
    · rw [hm] at h
      dsimp only at h
      by_cases hc : c0 = '-'
      · have hbe : (c0 == '-') = true := beq_iff_eq.mpr hc
        rw [hbe] at h
        by_cases hm2 : 2 ^ 63 < m
        · rw [if_neg (by simp), if_pos ⟨rfl, hm2⟩] at h
          simp at h
        · rw [if_neg (by simp), if_neg (by simp; omega)] at h
          simp only [if_true, Except.ok.injEq] at h
          refine ⟨m, rfl, rfl, by omega, fun _ => h.symm, fun hne => absurd hc hne⟩
      · have hbe : (c0 == '-') = false := beq_eq_false_iff_ne.mpr hc
        rw [hbe] at h
        by_cases hm2 : 2 ^ 63 ≤ m
        · rw [if_pos ⟨rfl, hm2⟩] at h
          simp at h
        · rw [if_neg (by simp; omega), if_neg (by simp)] at h
          simp only [Bool.false_eq_true, if_false, Except.ok.injEq] at h
          refine ⟨m, rfl, rfl, by omega, fun hcon => absurd hcon hc,
            fun _ => ⟨h.symm, by omega⟩⟩

/-- A string containing a character that is neither a digit for the
base nor a sign cannot parse. -/
lemma lem_parseInt_badchar {base : Nat} {s : List Char}
    (hbad : ∃ c ∈ s, isGoDigit base c = false ∧ c ≠ '-' ∧ c ≠ '+') :
    decodeFails (parseIntGo base s) := by
intro v h
obtain ⟨c, hcs, hcd, hcm, hcp⟩ := hbad
obtain ⟨c0, rest, m, hcons, hm, -, -, -⟩ := lem_parseInt_ok h
subst hcons
have hcdig : c ∈ (if c0 = '-' ∨ c0 = '+' then rest else c0 :: rest) := by
  split_ifs with hsign
  · rcases List.mem_cons.mp hcs with he | he
    · subst he
      rcases hsign with hs1 | hs1
      · exact absurd hs1 hcm
      · exact absurd hs1 hcp
    · exact he
  · exact hcs
have := lem_pd_ok base _ 0 m hm c hcdig
rw [hcd] at this
exact Bool.false_ne_true this

/-- An all-digit string whose value is at least `2^63` cannot parse. -/
lemma lem_parseInt_range {base : Nat} {s : List Char} {m0 : Nat}
    (hs : s ≠ []) (hpd : parseDigitsAux base 0 s = some m0) (hge : 2 ^ 63 ≤ m0) :
    decodeFails (parseIntGo base s) := by
intro v h
obtain ⟨c0, rest, m, hcons, hm, -, -, hpos⟩ := lem_parseInt_ok h
subst hcons
have hdig := lem_pd_ok base _ 0 m0 hpd c0 (List.mem_cons_self c0 rest)
have hc0m : c0 ≠ '-' := by
  intro he
  rw [he, lem_minus_not_digit] at hdig
  exact Bool.false_ne_true hdig
have hc0p : c0 ≠ '+' := by
  intro he
  rw [he, lem_plus_not_digit] at hdig
  exact Bool.false_ne_true hdig
rw [if_neg (not_or.mpr ⟨hc0m, hc0p⟩)] at hm
rw [hpd] at hm
obtain ⟨-, hlt⟩ := hpos hc0m
simp only [Option.some.injEq] at hm
omega

/-- `parseIntGo` accepts an optional leading minus sign. -/
lemma lem_parseInt_neg {base : Nat} {s : List Char} {m0 : Nat}
    (hs : s ≠ []) (hpd : parseDigitsAux base 0 s = some m0) (hle : m0 ≤ 2 ^ 63) :
    parseIntGo base ('-' :: s) = .ok (-(m0 : Int)) := by
obtain ⟨d1, dr, hcons⟩ := List.exists_cons_of_ne_nil hs
subst hcons
simp only [parseIntGo]
rw [if_pos (by simp : True ∨ ('-' : Char) = '+')]
dsimp only
rw [hpd]
dsimp only
rw [if_neg (by simp)]
rw [if_neg (by simp; omega)]
simp

/-- C8 counterexample: the decimal decoder does not fail on a leading
minus sign — `ParseString("-1")` succeeds and returns `-1`. -/
theorem C8_counterexample :
    parseString ['-', '1'] = .ok (-1) ∧ parseString ['+', '5'] = .ok 5 :=
⟨rfl, rfl⟩

/-- C8 amended: every codec's decoder rejects characters outside its
alphabet, length-bound violations, and encoded magnitudes of at least
`2^63`; for the decimal and binary decoders a single leading `'-'` or
`'+'` sign is additionally accepted (so they also accept negative
values), and their rejection of out-of-range magnitudes applies to the
digit string; the base64 decoder first discards CR/LF characters, so
its conditions are on the stripped input. -/
theorem C8_decoder_rejections :
    (∀ s : List Char, (∃ c ∈ s, isGoDigit 10 c = false ∧ c ≠ '-' ∧ c ≠ '+') →
      decodeFails (parseString s)) ∧
    (∀ (s : List Char) (m : Nat), s ≠ [] → parseDigitsAux 10 0 s = some m →
      2 ^ 63 ≤ m → decodeFails (parseString s)) ∧
    (∀ (s : List Char) (m : Nat), s ≠ [] → parseDigitsAux 10 0 s = some m →
      m ≤ 2 ^ 63 → parseString ('-' :: s) = .ok (-(m : Int))) ∧
    (∀ s : List Char, (∃ c ∈ s, isGoDigit 2 c = false ∧ c ≠ '-' ∧ c ≠ '+') →
      decodeFails (parseBase2 s)) ∧
    (∀ (s : List Char) (m : Nat), s ≠ [] → parseDigitsAux 2 0 s = some m →
      2 ^ 63 ≤ m → decodeFails (parseBase2 s)) ∧
    (∀ s : List Char, (s = [] ∨ 13 < s.length ∨ decodeAll decodeBase32Map s = none) →
      decodeFails (parseBase32 s)) ∧
    (∀ (s : List Char) (ds : List Nat), decodeAll decodeBase32Map s = some ds →
      2 ^ 63 ≤ hornerFold 32 0 ds → decodeFails (parseBase32 s)) ∧
    (∀ s : List Char, (s = [] ∨ 11 < s.length ∨ decodeAll decodeBase58Map s = none) →
      decodeFails (parseBase58 s)) ∧
    (∀ (s : List Char) (ds : List Nat), decodeAll decodeBase58Map s = some ds →
      2 ^ 63 ≤ hornerFold 58 0 ds → decodeFails (parseBase58 s)) ∧
    (∀ s : List Char, ((stripNewlines s).length ≠ 11 ∨
        decodeAll decodeBase64Map (stripNewlines s) = none) →
      decodeFails (parseBase64 s)) ∧
    (∀ (s : List Char) (ds : List Nat), (stripNewlines s).length = 11 →
      decodeAll decodeBase64Map (stripNewlines s) = some ds →
      2 ^ 63 ≤ hornerFold 64 0 ds / 4 → decodeFails (parseBase64 s)) := by
refine ⟨?_, ?_, ?_, ?_, ?_, ?_, ?_, ?_, ?_, ?_, ?_⟩
· exact fun s hbad => lem_parseInt_badchar hbad
· exact fun s m hs hpd hge => lem_parseInt_range hs hpd hge
· exact fun s m hs hpd hle => lem_parseInt_neg hs hpd hle
· exact fun s hbad => lem_parseInt_badchar hbad
· exact fun s m hs hpd hge => lem_parseInt_range hs hpd hge
· intro s hcond v h
  obtain ⟨hne, hlen, ds, hds, -, -⟩ := lem_parse32_ok h
  rcases hcond with hc | hc | hc
  · exact hne hc
  · omega
  · rw [hc] at hds
    cases hds
· intro s ds hds hge v h
  obtain ⟨-, -, ds2, hds2, -, hbound⟩ := lem_parse32_ok h
  rw [hds] at hds2
  cases hds2
  omega
· intro s hcond v h
  obtain ⟨hne, hlen, ds, hds, -, -⟩ := lem_parse58_ok h
  rcases hcond with hc | hc | hc
  · exact hne hc
  · omega
  · rw [hc] at hds
    cases hds
· intro s ds hds hge v h
  obtain ⟨-, -, ds2, hds2, -, hbound⟩ := lem_parse58_ok h
  rw [hds] at hds2
  cases hds2
  omega
· intro s hcond v h
  obtain ⟨hlen, ds, hds, -, -⟩ := lem_parse64_ok h
  rcases hcond with hc | hc
  · exact hc hlen
  · rw [hc] at hds
    cases hds
· intro s ds hlen hds hge v h
  obtain ⟨-, ds2, hds2, hbound, -⟩ := lem_parse64_ok h
  rw [hds] at hds2
  cases hds2
  rw [hlen] at hbound
  norm_num at hbound
  omega

theorem C8_decoder_rejections_witness :
    parseString ['9', '2', '2', '3', '3', '7', '2', '0', '3', '6', '8', '5', '4',
        '7', '7', '5', '8', '0', '8'] ≠ .ok 42 ∧
    parseBase32 ['y', 'y', 'y', 'y', 'y', 'y', 'y', 'y', 'y', 'y', 'y', 'y', 'y', 'y']
      ≠ .ok 42 ∧
    parseBase64 ['A'] ≠ .ok 42 :=
⟨C8_decoder_rejections.2.1 _ 9223372036854775808 (by decide) (by decide) (by decide) 42,
  C8_decoder_rejections.2.2.2.2.2.1 _ (Or.inr (Or.inl (by decide))) 42,
  C8_decoder_rejections.2.2.2.2.2.2.2.2.2.1 _ (Or.inl (by decide)) 42⟩

end ArbiterId
